import Mathlib

/-!
Verification of the ghost line-complexity checker (main.go of
github.com/elliotchance/ghost).  The definitions below are a shallow
embedding of the program: the Go AST node kinds that the program reads
are mirrored as inductive types, the process-wide mutable variables
(file.Comments, commentGroupIndex, currentFunction, hasErrors, the
emitted report lines) become an explicit state record that is threaded
through every function, and Go panics become an `Except` error that is
propagated exactly where the Go runtime would unwind.  Fields of AST
nodes that no function of the program ever reads (for example the
left-hand sides of assignments, the Init/Else parts of if statements,
the operand of a unary expression) are omitted; fields that are read,
or whose absence matters (the body of a range statement), are kept.
Machine integers are modelled as `Int`; no arithmetic in the program
comes near the int64 overflow boundary for the inputs considered here.
-/

namespace Ghost

/-- Binary operator tokens; the evaluator only ever distinguishes
logical AND (token.LAND) from everything else. -/
inductive Token where
  | land
  | lor
  | add
  | sub
  | mul
  | quo
  | eql
  | neq
  | lss
  | gtr
deriving DecidableEq, Repr

/-- One comment group of the parsed file: its source position and the
text that CommentGroup.Text() yields. -/
structure CommentGroup where
  pos : Nat
  text : String
deriving DecidableEq, Repr

/-- One line printed by printLine: position of the reported statement,
the complexity printed (−1 for the fault diagnostic), and the enclosing
function name (empty when none is established). -/
structure Report where
  pos : Nat
  complexity : Int
  inFunction : String
deriving DecidableEq, Repr

/-- Go runtime faults that the program can raise: a nil dereference
(calling Pos() on a nil ast.Stmt) and the explicit panic(n) calls on
statement, expression and declaration-spec kinds that have no case. -/
inductive Fault where
  | nilDeref
  | badStmtKind
  | badExprKind
  | badSpecKind
deriving DecidableEq, Repr

/-- The process-wide mutable state of main.go: the comment groups of the
current file, the comment cursor, the current function, the sticky
hasErrors flag and the lines printed so far.  The `visited` field does
not exist in the program: it is a ghost trace that records, in order,
the position of every statement passed to LineComplexity (`none` for a
nil statement), and influences nothing; it only serves to state the
visitation-order properties. -/
structure St where
  comments : List CommentGroup
  commentGroupIndex : Nat
  currentFunction : Option String
  hasErrors : Bool
  output : List Report
  visited : List (Option Nat)
deriving DecidableEq, Repr

/-- The three command-line options of the program. -/
structure Config where
  optionNeverFail : Bool
  optionIgnoreTests : Bool
  optionMaxLineComplexity : Int
deriving DecidableEq, Repr

/-- The state at process start: no comments loaded, cursor at zero, no
current function, no errors, nothing printed. -/
def initialSt : St :=
  { comments := []
    commentGroupIndex := 0
    currentFunction := none
    hasErrors := false
    output := []
    visited := [] }

/-- strings.Contains, on the underlying character lists. -/
def strHasSub (s pat : String) : Bool :=
  (List.range (s.toList.length + 1)).any fun i => pat.toList.isPrefixOf (s.toList.drop i)

/-- The ignore marker literal looked for in resolved comment text. -/
def ignoreMarker : String := "ghost:ignore"

/-- The newline appended after each consumed comment group text. -/
def nl : String := "\n"

/-- printLine: sets the sticky hasErrors flag and appends one report
line carrying the given complexity, the position of the reported
statement and the current function name (empty when none). -/
def printLine (complexity : Int) (pos : Nat) (st : St) : St :=
  { st with
      hasErrors := true
      output := st.output ++ [⟨pos, complexity, st.currentFunction.getD (String.mk [])⟩] }

/-- maxInt of main.go sorts its arguments ascending and returns the
last one; for the three arguments it is called with this is the
maximum. -/
def maxInt (a b c : Int) : Int := max (max a b) c

/-- Loop body of consumeComment.  The first argument is fuel; the
caller passes `comments.length − commentGroupIndex`, which bounds the
number of iterations exactly, so the fuel-exhausted branch coincides
with the loop-guard-false branch.  `linePos` is `line.Pos()` of the
statement — `none` for a nil ast.Stmt, on which calling Pos() is a nil
dereference, raised here exactly when the Go loop body would evaluate
line.Pos(), that is only when an unconsumed comment group remains. -/
def consumeCommentLoop : Nat → Option Nat → String → St → Except Fault String × St
  | 0, _, acc, st => (.ok acc, st)
  | fuel + 1, linePos, acc, st =>
    if h : st.commentGroupIndex < st.comments.length then
      let cg := st.comments.get ⟨st.commentGroupIndex, h⟩
      match linePos with
      | none => (.error .nilDeref, st)
      | some p =>
        if cg.pos < p then
          consumeCommentLoop fuel linePos (acc ++ cg.text ++ nl)
            { st with commentGroupIndex := st.commentGroupIndex + 1 }
        else
          (.ok acc, st)
    else
      (.ok acc, st)

/-- consumeComment of main.go: concatenates (text ++ newline) of every
not-yet-consumed comment group positioned strictly before the
statement, advancing the cursor past each one, and stops at the first
group not positioned before it. -/
def consumeComment (linePos : Option Nat) (st : St) : Except Fault String × St :=
  consumeCommentLoop (st.comments.length - st.commentGroupIndex) linePos (String.mk []) st

/-- Post-processing of the deferred recover in LineComplexity: when the
dispatch body panicked, print a −1 diagnostic line for the statement
being evaluated and re-raise the same panic; otherwise pass the result
through. -/
def recoverWrap (pos : Nat) (r : Except Fault Int × St) : Except Fault Int × St :=
  match r with
  | (.error e, st) => (.error e, printLine (-1) pos st)
  | ok => ok

/-- Sequencing of two state-transforming steps with Go panic
propagation: when the first step panicked the panic unwinds past the
rest of the function body, otherwise execution continues with its
result in the updated state.  This is the plumbing shared by every
sequential composition in the program. -/
def andThen {α β : Type} (r : Except Fault α × St) (k : α → St → Except Fault β × St) :
    Except Fault β × St :=
  match r with
  | (.error e, st) => (.error e, st)
  | (.ok v, st) => k v st

mutual

/-- Expressions, mirroring the go/ast expression kinds read by
exprComplexity.  `badExpr` stands for any expression kind with no case
in the switch (for example BadExpr or Ellipsis).  Operand fields that
no line of the program reads are omitted: the operand of a unary
expression or type assertion, the receiver and field of a selector,
the key of a key-value pair, the indexed operand of an index
expression (the program scores only the index), and the callee of a
call expression (the program scores only the arguments; defer and go
statements carry the callee of their call separately because the
program reads exactly that field of them). -/
inductive Expr where
  | basicLit
  | ident (name : String)
  | arrayType
  | mapType
  | chanType
  | structType
  | interfaceType
  | selector
  | unary
  | typeAssert
  | star (x : Expr)
  | call (args : List Expr)
  | binary (x : Expr) (op : Token) (y : Expr)
  | compositeLit (elts : List Expr)
  | index (idx : Expr)
  | keyValue (value : Expr)
  | paren (x : Expr)
  | funcLit (body : List Stmt)
  | slice (lo hi mx : Option Expr)
  | badExpr

/-- Statements, mirroring the go/ast statement kinds read by
LineComplexity, each carrying its source position (line.Pos()).
`emptyStmt` stands for any statement kind with no case in the switch
(for example EmptyStmt or CommClause).  The bodies of range and select
statements are kept even though the program never reads them, because
the claims speak about them. -/
inductive Stmt where
  | labeled (pos : Nat)
  | selectStmt (pos : Nat) (body : List Stmt)
  | incDec (pos : Nat)
  | branch (pos : Nat)
  | assign (pos : Nat) (rhs : List Expr)
  | exprStmt (pos : Nat) (x : Expr)
  | returnStmt (pos : Nat) (results : List Expr)
  | ifStmt (pos : Nat) (cond : Expr) (body : List Stmt)
  | block (pos : Nat) (stmts : List Stmt)
  | forStmt (pos : Nat) (ini : Option Stmt) (cond : Option Expr) (post : Option Stmt)
      (body : List Stmt)
  | switchStmt (pos : Nat) (tag : Option Expr) (body : List Stmt)
  | deferStmt (pos : Nat) (callFun : Expr)
  | goStmt (pos : Nat) (callFun : Expr)
  | typeSwitch (pos : Nat) (body : List Stmt)
  | rangeStmt (pos : Nat) (x : Expr) (body : List Stmt)
  | declStmt (pos : Nat) (specs : List Spec)
  | caseClause (pos : Nat) (vals : List Expr) (body : List Stmt)
  | send (pos : Nat) (value : Expr)
  | emptyStmt (pos : Nat)

/-- Declaration specs inside a DeclStmt: a type spec contributes
nothing, a value spec carries its initializer expressions, and
`badSpec` stands for any other spec kind (the default case that prints
a diagnostic and panics). -/
inductive Spec where
  | typeSpec
  | valueSpec (values : List Expr)
  | badSpec

end

/-- Position of a statement (line.Pos() in the program). -/
def stmtPos : Stmt → Nat
  | .labeled p => p
  | .selectStmt p _ => p
  | .incDec p => p
  | .branch p => p
  | .assign p _ => p
  | .exprStmt p _ => p
  | .returnStmt p _ => p
  | .ifStmt p _ _ => p
  | .block p _ => p
  | .forStmt p _ _ _ _ => p
  | .switchStmt p _ _ => p
  | .deferStmt p _ => p
  | .goStmt p _ => p
  | .typeSwitch p _ => p
  | .rangeStmt p _ _ => p
  | .declStmt p _ => p
  | .caseClause p _ _ => p
  | .send p _ => p
  | .emptyStmt p => p

/-- Test used by the binary-expression rule: is this expression
syntactically a call expression. -/
def isCall : Expr → Bool
  | .call _ => true
  | _ => false

/-- The name compared against in the nil-guard special case. -/
def nilName : String := "nil"

/-- Test for the nil-guard special case of the binary rule: the left
operand is itself a binary expression whose right-hand side is the
identifier nil, and the outer operator is logical AND. -/
def isNilGuard (x : Expr) (op : Token) : Bool :=
  match x, op with
  | .binary _ _ (.ident n), .land => n == nilName
  | _, _ => false

mutual

/-- LineComplexity applied to a possibly-nil ast.Stmt (the Init and
Post fields of a for statement can be nil).  The nil case first runs
consumeComment — whose loop dereferences the nil statement if any
unconsumed comment group remains — and then hits the `case nil` arm of
the switch, scoring 0.  The ghost `visited` trace records the entry. -/
def evalStmt (line : Option Stmt) (st : St) : Except Fault Int × St :=
  match line with
  | none =>
    andThen (consumeComment none { st with visited := st.visited ++ [none] }) fun comment st1 =>
      if strHasSub comment ignoreMarker then (.ok 0, st1)
      else (.ok 0, st1)
  | some s => evalStmt1 s st

/-- LineComplexity applied to a non-nil statement: consume the
preceding comment groups, return 0 at once when their text contains the
ignore marker, otherwise dispatch on the statement kind; the deferred
recover turns any panic of the dispatch into a −1 diagnostic line for
this statement followed by re-raising the panic. -/
def evalStmt1 (s : Stmt) (st : St) : Except Fault Int × St :=
  andThen
    (consumeComment (some (stmtPos s)) { st with visited := st.visited ++ [some (stmtPos s)] })
    fun comment st1 =>
    if strHasSub comment ignoreMarker then (.ok 0, st1)
    else
      recoverWrap (stmtPos s)
        (match s with
         | .labeled _ => (.ok 0, st1)
         | .selectStmt _ _ => (.ok 0, st1)
         | .incDec _ => (.ok 1, st1)
         | .branch _ => (.ok 1, st1)
         | .assign _ rhs => evalExprs rhs st1
         | .exprStmt _ x => evalExpr x st1
         | .returnStmt _ results =>
           match results with
           | [] => (.ok 0, st1)
           | r :: rs => listComplexityLoop (r :: rs) 1 st1
         | .ifStmt _ cond body =>
           andThen (evalStmts body st1) fun _ st2 => evalExpr cond st2
         | .block _ stmts =>
           andThen (evalStmts stmts st1) fun _ st2 => (.ok 0, st2)
         | .forStmt _ ini cond post body =>
           andThen (evalStmts body st1) fun _ st2 =>
           andThen (evalStmt ini st2) fun initComplexity st3 =>
           andThen (evalExprO cond st3) fun condComplexity st4 =>
           andThen (evalStmt post st4) fun postComplexity st5 =>
             (.ok (maxInt initComplexity condComplexity postComplexity), st5)
         | .switchStmt _ tag body =>
           match tag with
           | none => (.ok 0, st1)
           | some t =>
             andThen (evalStmts body st1) fun _ st2 =>
             andThen (evalExpr t st2) fun v st3 => (.ok (1 + v), st3)
         | .deferStmt _ callFun => evalExpr callFun st1
         | .goStmt _ callFun => evalExpr callFun st1
         | .typeSwitch _ body =>
           andThen (evalStmts body st1) fun _ st2 => (.ok 1, st2)
         | .rangeStmt _ x _ => evalExpr x st1
         | .declStmt p specs => evalSpecsLoop p specs 0 st1
         | .caseClause _ vals body =>
           andThen (evalStmts body st1) fun _ st2 => listComplexityLoop vals 1 st2
         | .send _ value => evalExpr value st1
         | .emptyStmt _ => (.error .badStmtKind, st1))

/-- The body-visitation loops (`for _, l := range ... { LineComplexity(l) }`):
each nested statement is evaluated for its side effects only, the score
is discarded, and a panic aborts the loop. -/
def evalStmts (l : List Stmt) (st : St) : Except Fault Unit × St :=
  match l with
  | [] => (.ok (), st)
  | s :: rest =>
    andThen (evalStmt1 s st) fun _ st1 => evalStmts rest st1

/-- exprComplexity of main.go (the non-nil cases; the nil case lives in
evalExprO). -/
def evalExpr (e : Expr) (st : St) : Except Fault Int × St :=
  match e with
  | .basicLit => (.ok 0, st)
  | .ident _ => (.ok 0, st)
  | .arrayType => (.ok 0, st)
  | .mapType => (.ok 0, st)
  | .chanType => (.ok 0, st)
  | .structType => (.ok 0, st)
  | .interfaceType => (.ok 0, st)
  | .selector => (.ok 0, st)
  | .unary => (.ok 1, st)
  | .typeAssert => (.ok 1, st)
  | .star x => evalExpr x st
  | .call args =>
    andThen (evalExprs args st) fun total st1 => (.ok (1 + total), st1)
  | .binary x op y =>
    andThen (evalExpr x st) fun left st1 =>
    andThen (evalExpr y st1) fun right st2 =>
      if isNilGuard x op then (.ok right, st2)
      else
        let left1 := if isCall x then left + 1 else left
        let right1 := if !isCall x && isCall y then right + 1 else right
        if left1 + right1 = 0 then (.ok 1, st2)
        else (.ok (left1 + right1), st2)
  | .compositeLit elts => listComplexityLoop elts 1 st
  | .index idx =>
    andThen (evalExpr idx st) fun v st1 => (.ok (1 + v), st1)
  | .keyValue value => evalExpr value st
  | .paren x => evalExpr x st
  | .funcLit body =>
    andThen (evalStmts body st) fun _ st1 => (.ok 1, st1)
  | .slice lo hi mx =>
    andThen (evalExprO lo st) fun a st1 =>
    andThen (evalExprO hi st1) fun b st2 =>
    andThen (evalExprO mx st2) fun c st3 => (.ok (1 + (a + b + c)), st3)
  | .badExpr => (.error .badExprKind, st)

/-- exprComplexity applied to a possibly-nil expression (slice bounds
and the for condition can be nil); the nil case scores 0. -/
def evalExprO (e : Option Expr) (st : St) : Except Fault Int × St :=
  match e with
  | none => (.ok 0, st)
  | some x => evalExpr x st

/-- exprsComplexity of main.go: sum of the complexities of a list of
expressions. -/
def evalExprs (l : List Expr) (st : St) : Except Fault Int × St :=
  match l with
  | [] => (.ok 0, st)
  | e :: rest =>
    andThen (evalExpr e st) fun v st1 =>
    andThen (evalExprs rest st1) fun total st2 => (.ok (v + total), st2)
/-- Loop of listComplexity of main.go, carried accumulator included:
each element contributes its complexity minus one, clamped below at
zero; call sites start the accumulator at 1. -/
def listComplexityLoop (l : List Expr) (total : Int) (st : St) : Except Fault Int × St :=
  match l with
  | [] => (.ok total, st)
  | e :: rest =>
    andThen (evalExpr e st) fun v st1 =>
      let c := v - 1
      let c := if c < 0 then 0 else c
      listComplexityLoop rest (total + c) st1

/-- Loop over the specs of a DeclStmt: type specs contribute nothing,
value specs add the sum over their initializers, and any other spec
kind prints a −1 diagnostic for the statement and panics. -/
def evalSpecsLoop (pos : Nat) (l : List Spec) (total : Int) (st : St) :
    Except Fault Int × St :=
  match l with
  | [] => (.ok total, st)
  | .typeSpec :: rest => evalSpecsLoop pos rest total st
  | .valueSpec values :: rest =>
    andThen (evalExprs values st) fun v st1 => evalSpecsLoop pos rest (total + v) st1
  | .badSpec :: _ => (.error .badSpecKind, printLine (-1) pos st)

end

/-- checkLine of main.go: compute the complexity of one top-level
statement of a function body, print a violation line when it is
strictly above the threshold, and return whether it was within the
threshold (a result the caller discards). -/
def checkLine (cfg : Config) (s : Stmt) (st : St) : Except Fault Bool × St :=
  andThen (evalStmt (some s) st) fun complexity st1 =>
    if complexity > cfg.optionMaxLineComplexity then
      (.ok (decide (complexity ≤ cfg.optionMaxLineComplexity)),
        printLine complexity (stmtPos s) st1)
    else
      (.ok (decide (complexity ≤ cfg.optionMaxLineComplexity)), st1)

/-- The loop of checkFunction over the top-level statements of a
function body. -/
def checkLines (cfg : Config) (l : List Stmt) (st : St) : Except Fault Unit × St :=
  match l with
  | [] => (.ok (), st)
  | s :: rest =>
    andThen (checkLine cfg s st) fun _ st1 => checkLines cfg rest st1

/-- checkFunction of main.go: record the current function, skip bodies
of externally implemented functions, and check each top-level
statement. -/
def checkFunction (cfg : Config) (name : String) (body : Option (List Stmt)) (st : St) :
    Except Fault Unit × St :=
  let st1 := { st with currentFunction := some name }
  match body with
  | none => (.ok (), st1)
  | some stmts => checkLines cfg stmts st1

/-- Top-level declarations of a file; only function declarations are
looked at by main.go, every other declaration kind is skipped. -/
inductive Decl where
  | funcDecl (name : String) (body : Option (List Stmt))
  | otherDecl
deriving Inhabited

/-- The declaration loop of main. -/
def runDecls (cfg : Config) (l : List Decl) (st : St) : Except Fault Unit × St :=
  match l with
  | [] => (.ok (), st)
  | .otherDecl :: rest => runDecls cfg rest st
  | .funcDecl name body :: rest =>
    andThen (checkFunction cfg name body st) fun _ st1 => runDecls cfg rest st1

/-- A parsed input file: its comment groups (in source-position order,
as go/ast delivers them) and its top-level declarations. -/
structure GoFile where
  comments : List CommentGroup
  decls : List Decl

/-- Per-file part of main: install the comment groups of the freshly
parsed file, reset the comment cursor to zero, and visit the
declarations.  Path filtering and parsing are outside the core and not
modelled; a parse failure would abort before this point. -/
def runFile (cfg : Config) (f : GoFile) (st : St) : Except Fault Unit × St :=
  runDecls cfg f.decls { st with comments := f.comments, commentGroupIndex := 0 }

/-- The file loop of main. -/
def runFiles (cfg : Config) (l : List GoFile) (st : St) : Except Fault Unit × St :=
  match l with
  | [] => (.ok (), st)
  | f :: rest =>
    andThen (runFile cfg f st) fun _ st1 => runFiles cfg rest st1

/-- Exit status selection at the end of main: 1 when some violation was
recorded and -never-fail is absent, 0 otherwise. -/
def exitCode (cfg : Config) (st : St) : Nat :=
  if st.hasErrors && !cfg.optionNeverFail then 1 else 0

/-- A whole fault-free run of the program: process the files starting
from the initial state and report the exit status; a fault (Go panic)
propagates instead, aborting the process abnormally. -/
def mainRun (cfg : Config) (files : List GoFile) : Except Fault Nat × St :=
  andThen (runFiles cfg files initialSt) fun _ st => (.ok (exitCode cfg st), st)

mutual

/-- Test that an expression contains no function literal anywhere, so
that evaluating it can visit no statement (used to state which
statement bodies are never visited). -/
def noFuncLit : Expr → Bool
  | .star x => noFuncLit x
  | .call args => noFuncLitList args
  | .binary x _ y => noFuncLit x && noFuncLit y
  | .compositeLit elts => noFuncLitList elts
  | .index idx => noFuncLit idx
  | .keyValue value => noFuncLit value
  | .paren x => noFuncLit x
  | .funcLit _ => false
  | .slice lo hi mx => noFuncLitO lo && noFuncLitO hi && noFuncLitO mx
  | _ => true

/-- noFuncLit over an expression list. -/
def noFuncLitList : List Expr → Bool
  | [] => true
  | e :: rest => noFuncLit e && noFuncLitList rest

/-- noFuncLit over an optional expression. -/
def noFuncLitO : Option Expr → Bool
  | none => true
  | some e => noFuncLit e

end

/-- Identifier name used in concrete inputs. -/
def nameX : String := "x"

/-- Identifier name used in concrete inputs. -/
def nameY : String := "y"

/-- Identifier name used in concrete inputs. -/
def nameB : String := "b"

/-- Function name used in concrete inputs. -/
def nameF : String := "f"

/-- Name of the identifier true. -/
def nameTrue : String := "true"

/-- Name of the identifier false. -/
def nameFalse : String := "false"

/-- Ordinary comment text used in concrete inputs. -/
def cText : String := "a comment"

/-- Comment text containing the ignore marker, used in concrete
inputs. -/
def igText : String := "ghost:ignore"

/-! Basic lemmas about the sequencing and recovery plumbing. -/

theorem andThen_ok {α β : Type} {r : Except Fault α × St} {k : α → St → Except Fault β × St}
    {b : β} {st' : St} (h : andThen r k = (.ok b, st')) :
    ∃ v st1, r = (.ok v, st1) ∧ k v st1 = (.ok b, st') := by
  rcases r with ⟨r1, st1⟩
  cases r1 with
  | error e => simp [andThen] at h
  | ok v => exact ⟨v, st1, rfl, h⟩

theorem andThen_error {α β : Type} {r : Except Fault α × St} {k : α → St → Except Fault β × St}
    {e : Fault} {st' : St} (h : andThen r k = (.error e, st')) :
    r = (.error e, st') ∨ ∃ v st1, r = (.ok v, st1) ∧ k v st1 = (.error e, st') := by
  rcases r with ⟨r1, st1⟩
  cases r1 with
  | error e0 =>
    left
    simp only [andThen, Prod.mk.injEq, Except.error.injEq] at h
    rw [h.1, h.2]
  | ok v => exact Or.inr ⟨v, st1, rfl, h⟩

theorem recoverWrap_ok {pos : Nat} {r : Except Fault Int × St} {v : Int} {st' : St}
    (h : recoverWrap pos r = (.ok v, st')) : r = (.ok v, st') := by
  rcases r with ⟨r1, st1⟩
  cases r1 with
  | error e => simp [recoverWrap] at h
  | ok w => simpa [recoverWrap] using h

theorem recoverWrap_error {pos : Nat} {r : Except Fault Int × St} {e : Fault} {st' : St}
    (h : recoverWrap pos r = (.error e, st')) :
    ∃ st2, r = (.error e, st2) ∧ st' = printLine (-1) pos st2 := by
  rcases r with ⟨r1, st1⟩
  cases r1 with
  | error e0 =>
    refine ⟨st1, ?_, ?_⟩ <;> simp [recoverWrap] at h <;> simp [h.1, ← h.2]
  | ok w => simp [recoverWrap] at h

/-! The frame property: facts true of the state change of every single
evaluator call, proved below by mutual induction mirroring the
evaluator. -/

/-- State-change frame of an evaluator call: the comment list and the
current function are untouched, the comment cursor never moves
backward, the ghost visitation trace and the printed output only grow,
and the sticky error flag afterwards is set exactly when it was already
set or the call printed something. -/
def StFrame (st st' : St) : Prop :=
  st'.comments = st.comments ∧
  st'.currentFunction = st.currentFunction ∧
  st.commentGroupIndex ≤ st'.commentGroupIndex ∧
  (∃ t, st'.visited = st.visited ++ t) ∧
  (∃ out, st'.output = st.output ++ out ∧ st'.hasErrors = (st.hasErrors || !out.isEmpty))

theorem stFrame_refl (st : St) : StFrame st st :=
  ⟨rfl, rfl, le_refl _, ⟨[], by simp⟩, ⟨[], by simp⟩⟩

theorem stFrame_trans {a b c : St} (h1 : StFrame a b) (h2 : StFrame b c) : StFrame a c := by
  obtain ⟨hc1, hf1, hi1, ⟨t1, hv1⟩, ⟨o1, ho1, he1⟩⟩ := h1
  obtain ⟨hc2, hf2, hi2, ⟨t2, hv2⟩, ⟨o2, ho2, he2⟩⟩ := h2
  refine ⟨hc2.trans hc1, hf2.trans hf1, le_trans hi1 hi2,
    ⟨t1 ++ t2, by rw [hv2, hv1, List.append_assoc]⟩,
    ⟨o1 ++ o2, by rw [ho2, ho1, List.append_assoc], ?_⟩⟩
  rw [he2, he1]
  cases o1 <;> cases o2 <;> simp

theorem printLine_frame (c : Int) (p : Nat) (st : St) : StFrame st (printLine c p st) :=
  ⟨rfl, rfl, le_refl _, ⟨[], by simp [printLine]⟩,
    ⟨[⟨p, c, st.currentFunction.getD (String.mk [])⟩], by simp [printLine], by simp [printLine]⟩⟩

theorem visitedAppend_frame (st : St) (t : List (Option Nat)) :
    StFrame st { st with visited := st.visited ++ t } :=
  ⟨rfl, rfl, le_refl _, ⟨t, rfl⟩, ⟨[], by simp⟩⟩

theorem andThen_frame {α β : Type} {st : St} {r : Except Fault α × St}
    {k : α → St → Except Fault β × St} (h1 : StFrame st r.2)
    (h2 : ∀ v st1, r = (.ok v, st1) → StFrame st1 (k v st1).2) :
    StFrame st (andThen r k).2 := by
  rcases r with ⟨r1, st1⟩
  cases r1 with
  | error e => exact h1
  | ok v => exact stFrame_trans h1 (h2 v st1 rfl)

theorem recoverWrap_frame {st : St} {pos : Nat} {r : Except Fault Int × St}
    (h : StFrame st r.2) : StFrame st (recoverWrap pos r).2 := by
  rcases r with ⟨r1, st1⟩
  cases r1 with
  | error e => exact stFrame_trans h (printLine_frame _ _ _)
  | ok v => exact h

/-! Lemmas about consumeComment: it only ever advances the comment
cursor, it cannot panic on a statement that has a position, and it
consumes exactly the maximal run of comment groups positioned before
the statement. -/

theorem consumeCommentLoop_state (fuel : Nat) (lp : Option Nat) (acc : String) (st : St) :
    ∃ n, st.commentGroupIndex ≤ n ∧
      (consumeCommentLoop fuel lp acc st).2 = { st with commentGroupIndex := n } := by
  induction fuel generalizing acc st with
  | zero => exact ⟨st.commentGroupIndex, le_refl _, rfl⟩
  | succ fuel ih =>
    rw [consumeCommentLoop]
    by_cases h : st.commentGroupIndex < st.comments.length
    · simp only [h, dite_true]
      cases lp with
      | none => exact ⟨st.commentGroupIndex, le_refl _, rfl⟩
      | some p =>
        by_cases hlt : (st.comments.get ⟨st.commentGroupIndex, h⟩).pos < p
        · simp only [hlt, if_true]
          obtain ⟨n, hn, heq⟩ := ih (acc ++ (st.comments.get ⟨st.commentGroupIndex, h⟩).text ++ nl)
            { st with commentGroupIndex := st.commentGroupIndex + 1 }
          simp only [St.commentGroupIndex] at hn
          refine ⟨n, by omega, ?_⟩
          rw [heq]
        · simp only [hlt, if_false]
          exact ⟨st.commentGroupIndex, le_refl _, rfl⟩
    · simp only [h, dite_false]
      exact ⟨st.commentGroupIndex, le_refl _, rfl⟩

theorem consumeComment_state (lp : Option Nat) (st : St) :
    ∃ n, st.commentGroupIndex ≤ n ∧
      (consumeComment lp st).2 = { st with commentGroupIndex := n } :=
  consumeCommentLoop_state _ lp _ st

theorem consumeComment_frame (lp : Option Nat) (st : St) : StFrame st (consumeComment lp st).2 := by
  obtain ⟨n, hn, heq⟩ := consumeComment_state lp st
  rw [heq]
  exact ⟨rfl, rfl, hn, ⟨[], by simp⟩, ⟨[], by simp⟩⟩

mutual

theorem evalStmt_frame (o : Option Stmt) (st : St) :
    StFrame { st with visited := st.visited ++ [Option.map stmtPos o] } (evalStmt o st).2 := by
  cases o with
  | none =>
    rw [evalStmt]
    refine andThen_frame (consumeComment_frame _ _) ?_
    intro comment st1 _
    by_cases hm : strHasSub comment ignoreMarker = true
    · rw [if_pos hm]; exact stFrame_refl st1
    · rw [if_neg hm]; exact stFrame_refl st1
  | some s => exact evalStmt1_frame s st

theorem evalStmt1_frame (s : Stmt) (st : St) :
    StFrame { st with visited := st.visited ++ [some (stmtPos s)] } (evalStmt1 s st).2 := by
  rw [evalStmt1]
  refine andThen_frame (consumeComment_frame _ _) ?_
  intro comment st1 _
  by_cases hm : strHasSub comment ignoreMarker = true
  · rw [if_pos hm]; exact stFrame_refl st1
  · rw [if_neg hm]
    apply recoverWrap_frame
    cases s with
    | labeled p => exact stFrame_refl st1
    | selectStmt p body => exact stFrame_refl st1
    | incDec p => exact stFrame_refl st1
    | branch p => exact stFrame_refl st1
    | assign p rhs => exact evalExprs_frame rhs st1
    | exprStmt p x => exact evalExpr_frame x st1
    | returnStmt p results =>
      cases results with
      | nil => exact stFrame_refl st1
      | cons r rs => exact listComplexityLoop_frame (r :: rs) 1 st1
    | ifStmt p cond body =>
      exact andThen_frame (evalStmts_frame body st1) fun _ st2 _ => evalExpr_frame cond st2
    | block p stmts =>
      exact andThen_frame (evalStmts_frame stmts st1) fun _ st2 _ => stFrame_refl st2
    | forStmt p ini cond post body =>
      refine andThen_frame (evalStmts_frame body st1) ?_
      intro _ st2 _
      refine andThen_frame (stFrame_trans (visitedAppend_frame st2 _) (evalStmt_frame ini st2)) ?_
      intro _ st3 _
      refine andThen_frame (evalExprO_frame cond st3) ?_
      intro _ st4 _
      refine andThen_frame (stFrame_trans (visitedAppend_frame st4 _) (evalStmt_frame post st4)) ?_
      intro _ st5 _
      exact stFrame_refl st5
    | switchStmt p tag body =>
      cases tag with
      | none => exact stFrame_refl st1
      | some t =>
        refine andThen_frame (evalStmts_frame body st1) ?_
        intro _ st2 _
        exact andThen_frame (evalExpr_frame t st2) fun _ st3 _ => stFrame_refl st3
    | deferStmt p callFun => exact evalExpr_frame callFun st1
    | goStmt p callFun => exact evalExpr_frame callFun st1
    | typeSwitch p body =>
      exact andThen_frame (evalStmts_frame body st1) fun _ st2 _ => stFrame_refl st2
    | rangeStmt p x body => exact evalExpr_frame x st1
    | declStmt p specs => exact evalSpecsLoop_frame p specs 0 st1
    | caseClause p vals body =>
      exact andThen_frame (evalStmts_frame body st1) fun _ st2 _ =>
        listComplexityLoop_frame vals 1 st2
    | send p value => exact evalExpr_frame value st1
    | emptyStmt p => exact stFrame_refl st1

theorem evalStmts_frame (l : List Stmt) (st : St) : StFrame st (evalStmts l st).2 := by
  cases l with
  | nil => exact stFrame_refl st
  | cons s rest =>
    rw [evalStmts]
    refine andThen_frame (stFrame_trans (visitedAppend_frame st _) (evalStmt1_frame s st)) ?_
    intro _ st1 _
    exact evalStmts_frame rest st1

theorem evalExpr_frame (e : Expr) (st : St) : StFrame st (evalExpr e st).2 := by
  cases e with
  | basicLit => exact stFrame_refl st
  | ident name => exact stFrame_refl st
  | arrayType => exact stFrame_refl st
  | mapType => exact stFrame_refl st
  | chanType => exact stFrame_refl st
  | structType => exact stFrame_refl st
  | interfaceType => exact stFrame_refl st
  | selector => exact stFrame_refl st
  | unary => exact stFrame_refl st
  | typeAssert => exact stFrame_refl st
  | star x => exact evalExpr_frame x st
  | call args =>
    rw [evalExpr]
    exact andThen_frame (evalExprs_frame args st) fun _ st1 _ => stFrame_refl st1
  | binary x op y =>
    rw [evalExpr]
    refine andThen_frame (evalExpr_frame x st) ?_
    intro left st1 _
    refine andThen_frame (evalExpr_frame y st1) ?_
    intro right st2 _
    by_cases hg : isNilGuard x op = true
    · rw [if_pos hg]; exact stFrame_refl st2
    · rw [if_neg hg]
      dsimp only
      repeat' split
      all_goals exact stFrame_refl st2
  | compositeLit elts => exact listComplexityLoop_frame elts 1 st
  | index idx =>
    rw [evalExpr]
    exact andThen_frame (evalExpr_frame idx st) fun _ st1 _ => stFrame_refl st1
  | keyValue value => exact evalExpr_frame value st
  | paren x => exact evalExpr_frame x st
  | funcLit body =>
    rw [evalExpr]
    exact andThen_frame (evalStmts_frame body st) fun _ st1 _ => stFrame_refl st1
  | slice lo hi mx =>
    rw [evalExpr]
    refine andThen_frame (evalExprO_frame lo st) ?_
    intro _ st1 _
    refine andThen_frame (evalExprO_frame hi st1) ?_
    intro _ st2 _
    exact andThen_frame (evalExprO_frame mx st2) fun _ st3 _ => stFrame_refl st3
  | badExpr => exact stFrame_refl st

theorem evalExprO_frame (e : Option Expr) (st : St) : StFrame st (evalExprO e st).2 := by
  cases e with
  | none => exact stFrame_refl st
  | some x => exact evalExpr_frame x st

theorem evalExprs_frame (l : List Expr) (st : St) : StFrame st (evalExprs l st).2 := by
  cases l with
  | nil => exact stFrame_refl st
  | cons e rest =>
    rw [evalExprs]
    refine andThen_frame (evalExpr_frame e st) ?_
    intro _ st1 _
    exact andThen_frame (evalExprs_frame rest st1) fun _ st2 _ => stFrame_refl st2

theorem listComplexityLoop_frame (l : List Expr) (total : Int) (st : St) :
    StFrame st (listComplexityLoop l total st).2 := by
  cases l with
  | nil => exact stFrame_refl st
  | cons e rest =>
    rw [listComplexityLoop]
    refine andThen_frame (evalExpr_frame e st) ?_
    intro v st1 _
    exact listComplexityLoop_frame rest _ st1

theorem evalSpecsLoop_frame (pos : Nat) (l : List Spec) (total : Int) (st : St) :
    StFrame st (evalSpecsLoop pos l total st).2 := by
  cases l with
  | nil => exact stFrame_refl st
  | cons sp rest =>
    cases sp with
    | typeSpec => exact evalSpecsLoop_frame pos rest total st
    | valueSpec values =>
      rw [evalSpecsLoop]
      refine andThen_frame (evalExprs_frame values st) ?_
      intro v st1 _
      exact evalSpecsLoop_frame pos rest _ st1
    | badSpec => exact printLine_frame _ _ _

end

theorem evalStmt1_frame' (s : Stmt) (st : St) : StFrame st (evalStmt1 s st).2 :=
  stFrame_trans (visitedAppend_frame st _) (evalStmt1_frame s st)

theorem evalStmt_frame' (o : Option Stmt) (st : St) : StFrame st (evalStmt o st).2 :=
  stFrame_trans (visitedAppend_frame st _) (evalStmt_frame o st)

theorem evalStmt1_visited (s : Stmt) (st : St) :
    ∃ t, (evalStmt1 s st).2.visited = st.visited ++ (some (stmtPos s) :: t) := by
  obtain ⟨-, -, -, ⟨t, hv⟩, -⟩ := evalStmt1_frame s st
  refine ⟨t, ?_⟩
  rw [hv]
  simp only [St.visited]
  rw [List.append_assoc]
  rfl

theorem evalStmt_visited (o : Option Stmt) (st : St) :
    ∃ t, (evalStmt o st).2.visited = st.visited ++ (Option.map stmtPos o :: t) := by
  obtain ⟨-, -, -, ⟨t, hv⟩, -⟩ := evalStmt_frame o st
  refine ⟨t, ?_⟩
  rw [hv]
  simp only [St.visited]
  rw [List.append_assoc]
  rfl

/-- When a visitation loop over a statement list returns normally,
every statement of the list has been passed to the evaluator: its
position was recorded on the ghost trace, inside the part of the trace
appended by the loop. -/
theorem evalStmts_visits (l : List Stmt) (st : St) (u : Unit) (st' : St)
    (h : evalStmts l st = (.ok u, st')) :
    ∃ ext, st'.visited = st.visited ++ ext ∧ ∀ c ∈ l, some (stmtPos c) ∈ ext := by
  induction l generalizing st with
  | nil =>
    rw [evalStmts] at h
    simp only [Prod.mk.injEq, Except.ok.injEq] at h
    rw [← h.2]
    exact ⟨[], by simp, by simp⟩
  | cons s rest ih =>
    rw [evalStmts] at h
    obtain ⟨v, st1, h1, h2⟩ := andThen_ok h
    obtain ⟨t1, hv1⟩ := evalStmt1_visited s st
    rw [h1] at hv1
    obtain ⟨ext1, hv2, hmem⟩ := ih st1 h2
    refine ⟨(some (stmtPos s) :: t1) ++ ext1, ?_, ?_⟩
    · rw [hv2, hv1, List.append_assoc]
    · intro c hc
      rcases List.mem_cons.mp hc with hc | hc
      · subst hc; simp
      · simp only [List.mem_append]
        exact Or.inr (hmem c hc)

/-! Output-only frame, preserved also by the driver functions (which
reset the per-file comment state and set the current function, so the
full frame does not apply to them). -/

/-- Output frame: the printed lines only ever grow, and the sticky
error flag afterwards is set exactly when it was set before or
something new was printed. -/
def OutFrame (st st' : St) : Prop :=
  ∃ out, st'.output = st.output ++ out ∧ st'.hasErrors = (st.hasErrors || !out.isEmpty)

theorem stFrame_outFrame {a b : St} (h : StFrame a b) : OutFrame a b := h.2.2.2.2

theorem outFrame_refl (st : St) : OutFrame st st := ⟨[], by simp, by simp⟩

theorem outFrame_trans {a b c : St} (h1 : OutFrame a b) (h2 : OutFrame b c) : OutFrame a c := by
  obtain ⟨o1, ho1, he1⟩ := h1
  obtain ⟨o2, ho2, he2⟩ := h2
  refine ⟨o1 ++ o2, by rw [ho2, ho1, List.append_assoc], ?_⟩
  rw [he2, he1]
  cases o1 <;> cases o2 <;> simp

theorem andThen_outFrame {α β : Type} {st : St} {r : Except Fault α × St}
    {k : α → St → Except Fault β × St} (h1 : OutFrame st r.2)
    (h2 : ∀ v st1, r = (.ok v, st1) → OutFrame st1 (k v st1).2) :
    OutFrame st (andThen r k).2 := by
  rcases r with ⟨r1, st1⟩
  cases r1 with
  | error e => exact h1
  | ok v => exact outFrame_trans h1 (h2 v st1 rfl)

theorem checkLine_outFrame (cfg : Config) (s : Stmt) (st : St) :
    OutFrame st (checkLine cfg s st).2 := by
  rw [checkLine]
  refine andThen_outFrame (stFrame_outFrame (evalStmt_frame' (some s) st)) ?_
  intro complexity st1 _
  by_cases hgt : complexity > cfg.optionMaxLineComplexity
  · rw [if_pos hgt]
    exact stFrame_outFrame (printLine_frame _ _ _)
  · rw [if_neg hgt]
    exact outFrame_refl st1

theorem checkLines_outFrame (cfg : Config) (l : List Stmt) (st : St) :
    OutFrame st (checkLines cfg l st).2 := by
  induction l generalizing st with
  | nil => exact outFrame_refl st
  | cons s rest ih =>
    rw [checkLines]
    refine andThen_outFrame (checkLine_outFrame cfg s st) ?_
    intro _ st1 _
    exact ih st1

theorem checkFunction_outFrame (cfg : Config) (name : String) (body : Option (List Stmt))
    (st : St) : OutFrame st (checkFunction cfg name body st).2 := by
  rw [checkFunction.eq_def]
  cases body with
  | none => exact ⟨[], by simp, by simp⟩
  | some stmts =>
    exact outFrame_trans (⟨[], by simp, by simp⟩ :
      OutFrame st { st with currentFunction := some name }) (checkLines_outFrame cfg stmts _)

theorem runDecls_outFrame (cfg : Config) (l : List Decl) (st : St) :
    OutFrame st (runDecls cfg l st).2 := by
  induction l generalizing st with
  | nil => exact outFrame_refl st
  | cons d rest ih =>
    cases d with
    | otherDecl => exact ih st
    | funcDecl name body =>
      rw [runDecls]
      refine andThen_outFrame (checkFunction_outFrame cfg name body st) ?_
      intro _ st1 _
      exact ih st1

theorem runFile_outFrame (cfg : Config) (f : GoFile) (st : St) :
    OutFrame st (runFile cfg f st).2 := by
  rw [runFile]
  exact outFrame_trans (⟨[], by simp, by simp⟩ :
    OutFrame st { st with comments := f.comments, commentGroupIndex := 0 })
    (runDecls_outFrame cfg f.decls _)

theorem runFiles_outFrame (cfg : Config) (l : List GoFile) (st : St) :
    OutFrame st (runFiles cfg l st).2 := by
  induction l generalizing st with
  | nil => exact outFrame_refl st
  | cons f rest ih =>
    rw [runFiles]
    refine andThen_outFrame (runFile_outFrame cfg f st) ?_
    intro _ st1 _
    exact ih st1

/-- In any fault-free run the exit status is computed from the final
state, and the sticky flag is set exactly when some line was printed. -/
theorem mainRun_ok_inv (cfg : Config) (files : List GoFile) (n : Nat) (st' : St)
    (h : mainRun cfg files = (.ok n, st')) :
    n = exitCode cfg st' ∧ st'.hasErrors = !st'.output.isEmpty := by
  rw [mainRun] at h
  obtain ⟨v, st1, h1, h2⟩ := andThen_ok h
  simp only [Prod.mk.injEq, Except.ok.injEq] at h2
  obtain ⟨hn, hst⟩ := h2
  have hof : OutFrame initialSt st1 := by
    have := runFiles_outFrame cfg files initialSt
    rw [h1] at this
    exact this
  obtain ⟨out, ho, he⟩ := hof
  subst hst
  refine ⟨hn.symm, ?_⟩
  rw [he, ho]
  simp [initialSt]

/-! Precise behaviour of consumeComment: on a statement with a
position it never faults and consumes exactly the maximal run of
not-yet-consumed comment groups positioned strictly before the
statement; on a nil statement it faults exactly when an unconsumed
comment group remains. -/

theorem consumeCommentLoop_sound (fuel : Nat) (p : Nat) (acc : String) (st : St)
    (hfuel : st.comments.length - st.commentGroupIndex ≤ fuel)
    (hidx : st.commentGroupIndex ≤ st.comments.length) :
    ∃ c n,
      consumeCommentLoop fuel (some p) acc st = (.ok c, { st with commentGroupIndex := n }) ∧
      st.commentGroupIndex ≤ n ∧ n ≤ st.comments.length ∧
      (∀ i (h : i < st.comments.length), st.commentGroupIndex ≤ i → i < n →
        (st.comments.get ⟨i, h⟩).pos < p) ∧
      (∀ h : n < st.comments.length, ¬ (st.comments.get ⟨n, h⟩).pos < p) := by
  induction fuel generalizing acc st with
  | zero =>
    have hlen : st.commentGroupIndex = st.comments.length := by omega
    refine ⟨acc, st.commentGroupIndex, rfl, le_refl _, by omega, ?_, ?_⟩
    · intro i h h1 h2
      omega
    · intro h
      omega
  | succ fuel ih =>
    rw [consumeCommentLoop]
    by_cases h : st.commentGroupIndex < st.comments.length
    · simp only [h, dite_true]
      by_cases hlt : (st.comments.get ⟨st.commentGroupIndex, h⟩).pos < p
      · rw [if_pos hlt]
        obtain ⟨c, n, heq, hn1, hn2, hrange, hstop⟩ :=
          ih (acc ++ (st.comments.get ⟨st.commentGroupIndex, h⟩).text ++ nl)
            { st with commentGroupIndex := st.commentGroupIndex + 1 }
            (by simp only [St.comments, St.commentGroupIndex]; omega)
            (by simp only [St.comments, St.commentGroupIndex]; omega)
        simp only [St.comments, St.commentGroupIndex] at hn1 hn2 hrange hstop
        refine ⟨c, n, by rw [heq], by omega, hn2, ?_, hstop⟩
        intro i hi h1 h2
        rcases Nat.eq_or_lt_of_le h1 with h1 | h1
        · subst h1
          exact hlt
        · exact hrange i hi h1 h2
      · rw [if_neg hlt]
        refine ⟨acc, st.commentGroupIndex, rfl, le_refl _, by omega, ?_, ?_⟩
        · intro i hi h1 h2
          omega
        · intro hh
          exact hlt
    · simp only [h, dite_false]
      refine ⟨acc, st.commentGroupIndex, rfl, le_refl _, by omega, ?_, ?_⟩
      · intro i hi h1 h2
        omega
      · intro hh
        omega

theorem consumeComment_sound (p : Nat) (st : St)
    (hidx : st.commentGroupIndex ≤ st.comments.length) :
    ∃ c n,
      consumeComment (some p) st = (.ok c, { st with commentGroupIndex := n }) ∧
      st.commentGroupIndex ≤ n ∧ n ≤ st.comments.length ∧
      (∀ i (h : i < st.comments.length), st.commentGroupIndex ≤ i → i < n →
        (st.comments.get ⟨i, h⟩).pos < p) ∧
      (∀ h : n < st.comments.length, ¬ (st.comments.get ⟨n, h⟩).pos < p) :=
  consumeCommentLoop_sound _ p _ st (le_refl _) hidx

theorem consumeComment_none (st : St) :
    consumeComment none st =
      (if st.commentGroupIndex < st.comments.length then (.error .nilDeref, st)
       else (.ok (String.mk []), st)) := by
  rw [consumeComment]
  rcases Nat.lt_or_ge st.commentGroupIndex st.comments.length with hlt | hge
  · obtain ⟨k, hk⟩ : ∃ k, st.comments.length - st.commentGroupIndex = k + 1 :=
      ⟨st.comments.length - st.commentGroupIndex - 1, by omega⟩
    rw [hk, if_pos hlt, consumeCommentLoop]
    simp only [hlt, dite_true]
  · have hk : st.comments.length - st.commentGroupIndex = 0 := by omega
    rw [hk, if_neg (by omega)]
    rfl

theorem consumeCommentLoop_some_ok (fuel : Nat) (p : Nat) (acc : String) (st : St) :
    ∃ c st1, consumeCommentLoop fuel (some p) acc st = (.ok c, st1) := by
  induction fuel generalizing acc st with
  | zero => exact ⟨acc, st, rfl⟩
  | succ fuel ih =>
    rw [consumeCommentLoop]
    by_cases h : st.commentGroupIndex < st.comments.length
    · simp only [h, dite_true]
      by_cases hlt : (st.comments.get ⟨st.commentGroupIndex, h⟩).pos < p
      · rw [if_pos hlt]
        exact ih _ _
      · rw [if_neg hlt]
        exact ⟨acc, st, rfl⟩
    · simp only [h, dite_false]
      exact ⟨acc, st, rfl⟩

theorem consumeComment_some_ok (p : Nat) (st : St) :
    ∃ c st1, consumeComment (some p) st = (.ok c, st1) :=
  consumeCommentLoop_some_ok _ p _ st

/-- LineComplexity on a nil statement can only return 0 when it
returns at all. -/
theorem evalStmt_none_ok {st : St} {i : Int} {st' : St}
    (h : evalStmt none st = (.ok i, st')) : i = 0 := by
  rw [evalStmt] at h
  rcases hc : consumeComment none { st with visited := st.visited ++ [none] } with ⟨r, st1⟩
  rw [hc] at h
  cases r with
  | error e => simp [andThen] at h
  | ok comment =>
    simp only [andThen] at h
    split at h <;>
      (simp only [Prod.mk.injEq, Except.ok.injEq] at h; omega)

/-! Claim C1. -/

/-- C1: counterexample.  For a file whose one function contains the
single statement x = a() + b() + c() (positions: statement at 7),
threshold 5 and no -never-fail, the binary-expression rule gives the
statement complexity 5, which is not strictly greater than the
threshold, so the program prints no violation, records no error and
exits with status 0 — contradicting the claim that it reports a
violation for that line and exits with status 1. -/
theorem c1_counterexample :
    (mainRun ⟨false, false, 5⟩
      [⟨[], [.funcDecl nameF
        (some [.assign 7 [.binary (.binary (.call []) .add (.call [])) .add (.call [])]])]⟩]).1
      = .ok 0 ∧
    (mainRun ⟨false, false, 5⟩
      [⟨[], [.funcDecl nameF
        (some [.assign 7 [.binary (.binary (.call []) .add (.call [])) .add (.call [])]])]⟩]).2.output
      = [] ∧
    (mainRun ⟨false, false, 5⟩
      [⟨[], [.funcDecl nameF
        (some [.assign 7 [.binary (.binary (.call []) .add (.call [])) .add (.call [])]])]⟩]).2.hasErrors
      = false :=
  ⟨rfl, rfl, rfl⟩

/-- C1 (amended): for that file and threshold 5 without -never-fail,
the statement scores exactly 5 by the binary-expression rule
(1+1 for the inner call-plus-call with the left-call bonus gives 3,
then 3 plus the right call 1 with the right-call bonus gives 5); 5
does not exceed the threshold 5, so no violation is reported and the
exit status is 0. -/
theorem c1_amended :
    evalStmt1 (.assign 7 [.binary (.binary (.call []) .add (.call [])) .add (.call [])])
        { initialSt with currentFunction := some nameF } =
      (.ok 5, { initialSt with currentFunction := some nameF, visited := [some 7] }) ∧
    ((5 : Int) ≤ 5) ∧
    mainRun ⟨false, false, 5⟩
      [⟨[], [.funcDecl nameF
        (some [.assign 7 [.binary (.binary (.call []) .add (.call [])) .add (.call [])]])]⟩] =
      (.ok 0, { initialSt with currentFunction := some nameF, visited := [some 7] }) :=
  ⟨rfl, by decide, rfl⟩

/-! Claim C4. -/

/-- C4: the statement `for true && false {}` (no init, no post, empty
body, condition true && false) is scored 1 by the evaluator, not 2 as
the specification and the test suite of the repository (TestLineComplexity,
section For) state: the condition scores 1 (two zero-score identifiers
under a binary operator, floored at 1) and the for rule returns
max(0, 1, 0) with no extra bonus for the condition. -/
theorem c4_for_cond_eval :
    evalStmt1 (.forStmt 10 none
        (some (.binary (.ident nameTrue) .land (.ident nameFalse))) none []) initialSt =
      (.ok 1, { initialSt with visited := [some 10, none, none] }) ∧
    (1 : Int) ≠ 2 :=
  ⟨rfl, by decide⟩

/-! Claim C10. -/

/-- C10: evaluation of absent init/post clauses is not total.  In a
file with one not-yet-consumed comment group (position 100), the
statement `for {}` at position 10 reaches LineComplexity(nil) for its
absent init clause; consumeComment is entered because a comment group
remains, calls Pos() on the nil statement and faults with a nil
dereference before the nil dispatch case could return 0; the enclosing
for frame prints its −1 diagnostic and re-raises, so the whole
evaluation faults. -/
theorem c10_nil_deref_fault :
    consumeComment none
        { initialSt with comments := [⟨100, cText⟩], visited := [some 10, none] } =
      (.error .nilDeref,
        { initialSt with comments := [⟨100, cText⟩], visited := [some 10, none] }) ∧
    evalStmt1 (.forStmt 10 none none none []) { initialSt with comments := [⟨100, cText⟩] } =
      (.error .nilDeref,
        { initialSt with
            comments := [⟨100, cText⟩]
            visited := [some 10, none]
            hasErrors := true
            output := [⟨10, -1, String.mk []⟩] }) :=
  ⟨rfl, rfl⟩

/-! Claim C2. -/

/-- C2: counterexample.  The binary expression `x != nil && y` matches
the nil-guard special case and is returned the right-operand
complexity 0 unchanged: a binary expression can score 0, so the
claimed "every binary expression scores at least 1" is false (the
floor at 1 is applied only on the non-special path). -/
theorem c2_counterexample :
    evalExpr (.binary (.binary (.ident nameX) .neq (.ident nilName)) .land (.ident nameY))
        initialSt = (.ok 0, initialSt) ∧
    ((0 : Int) < 1) :=
  ⟨rfl, by decide⟩

/-- C2 (amended): for a binary expression whose operands evaluate to L
and R (both non-negative, as all complexities are): in the nil-guard
case (left operand a binary expression with right-hand identifier nil,
outer operator logical AND) the result is exactly R; otherwise the
left operand being a call adds one to L, else the right operand being
a call adds one to R (at most one bonus, left checked first), and the
result is L + R floored at 1, hence at least 1.  The "at least 1"
of the original claim holds only on this non-special path. -/
theorem c2_amended (x : Expr) (op : Token) (y : Expr) (st st1 st2 : St) (l r : Int)
    (hx : evalExpr x st = (.ok l, st1)) (hy : evalExpr y st1 = (.ok r, st2))
    (hl : 0 ≤ l) (hr : 0 ≤ r) :
    (isNilGuard x op = true → evalExpr (.binary x op y) st = (.ok r, st2)) ∧
    (isNilGuard x op = false →
      ∃ v, evalExpr (.binary x op y) st = (.ok v, st2) ∧
        v = (if ((if isCall x then l + 1 else l) +
              (if (!isCall x && isCall y) then r + 1 else r)) = 0
          then 1
          else ((if isCall x then l + 1 else l) +
              (if (!isCall x && isCall y) then r + 1 else r))) ∧
        1 ≤ v) := by
  rw [evalExpr, hx]
  simp only [andThen]
  rw [hy]
  simp only [andThen]
  constructor
  · intro hg
    rw [if_pos hg]
  · intro hg
    have hg' : ¬ (isNilGuard x op = true) := by rw [hg]; simp
    rw [if_neg hg']
    refine ⟨_, ?_, rfl, ?_⟩
    · repeat' split
      all_goals rfl
    · by_cases hcx : isCall x = true <;> by_cases hcy : isCall y = true <;>
        simp [hcx, hcy] <;> omega

/-- C2: witness for the amended theorem at a concrete input:
`a() || b` scores (1+1) + 0 = 2 on the non-special path. -/
theorem c2_witness :
    evalExpr (.binary (.call []) .lor (.ident nameB)) initialSt = (.ok 2, initialSt) := by
  obtain ⟨v, hv, hveq, hge⟩ := (c2_amended (.call []) .lor (.ident nameB) initialSt initialSt
    initialSt 1 0 rfl rfl (by decide) (by decide)).2 rfl
  rw [hv, show v = 2 from by rw [hveq]; decide]

/-! Claim C3. -/

/-- C3: counterexample.  The statement `for {}` at position 10,
evaluated while one comment group (position 100) is still unconsumed,
does not return max(I, C, P) = 0: evaluating the absent init clause
faults with a nil dereference (see C10), so the evaluator returns no
value at all for this for statement. -/
theorem c3_counterexample :
    (evalStmt1 (.forStmt 10 none none none [])
        { initialSt with comments := [⟨100, cText⟩] }).1 = .error .nilDeref ∧
    (evalStmt1 (.forStmt 10 none none none [])
        { initialSt with comments := [⟨100, cText⟩] }).1 ≠ .ok (maxInt 0 0 0) := by
  refine ⟨rfl, ?_⟩
  intro h
  rw [show (evalStmt1 (.forStmt 10 none none none [])
      { initialSt with comments := [⟨100, cText⟩] }).1 = .error .nilDeref from rfl] at h
  exact Except.noConfusion h

/-- C3 (amended): whenever the evaluation of a for statement is not
suppressed by an ignore directive and every part of it completes
without fault, the returned score is max(I, C, P) where I, C, P are
the scores of the init clause, the condition and the post clause, and
an absent clause that completes scores 0. -/
theorem c3_amended (p : Nat) (ini : Option Stmt) (cond : Option Expr) (post : Option Stmt)
    (body : List Stmt) (st stb st2 st3 st4 st5 : St) (ctext : String) (i c pv : Int) (u : Unit)
    (hc : consumeComment (some p) { st with visited := st.visited ++ [some p] } = (.ok ctext, stb))
    (hm : strHasSub ctext ignoreMarker = false)
    (hb : evalStmts body stb = (.ok u, st2))
    (hi : evalStmt ini st2 = (.ok i, st3))
    (hcond : evalExprO cond st3 = (.ok c, st4))
    (hp : evalStmt post st4 = (.ok pv, st5)) :
    evalStmt1 (.forStmt p ini cond post body) st = (.ok (maxInt i c pv), st5) ∧
    (ini = none → i = 0) ∧ (cond = none → c = 0) ∧ (post = none → pv = 0) := by
  have hm' : ¬ (strHasSub ctext ignoreMarker = true) := by rw [hm]; simp
  refine ⟨?_, ?_, ?_, ?_⟩
  · rw [evalStmt1]
    rw [show stmtPos (.forStmt p ini cond post body) = p from rfl] at *
    rw [hc]
    simp only [andThen]
    rw [if_neg hm', hb]
    simp only [andThen]
    rw [hi]
    simp only [andThen]
    rw [hcond]
    simp only [andThen]
    rw [hp]
    simp only [andThen]
    rfl
  · intro h
    subst h
    exact evalStmt_none_ok hi
  · intro h
    subst h
    rw [show evalExprO none st3 = (.ok 0, st3) from rfl] at hcond
    simp only [Prod.mk.injEq, Except.ok.injEq] at hcond
    omega
  · intro h
    subst h
    exact evalStmt_none_ok hp

/-- C3: witness for the amended theorem at a concrete for statement
`for i++; b; i++ {}` (positions 10/11/12): init and post score 1, the
condition identifier scores 0, and the for statement scores
max(1, 0, 1) = 1. -/
theorem c3_witness :
    evalStmt1 (.forStmt 10 (some (.incDec 11)) (some (.ident nameB)) (some (.incDec 12)) [])
        initialSt = (.ok (maxInt 1 0 1), { initialSt with visited := [some 10, some 11, some 12] }) :=
  (c3_amended 10 (some (.incDec 11)) (some (.ident nameB)) (some (.incDec 12)) []
    initialSt _ _ _ _ _ _ 1 0 1 () rfl rfl rfl rfl rfl rfl).1

/-! Claim C5. -/

/-- C5: when the comment text resolved for a statement contains the
ignore marker, the evaluator returns 0 immediately, whatever the
statement is: no recursion into nested bodies happens (the ghost trace
gains only the entry for this statement), nothing is printed and the
error flag is untouched; only the comment cursor may have advanced. -/
theorem c5_ignore_directive (s : Stmt) (st : St) (ctext : String) (stb : St)
    (hc : consumeComment (some (stmtPos s))
        { st with visited := st.visited ++ [some (stmtPos s)] } = (.ok ctext, stb))
    (hm : strHasSub ctext ignoreMarker = true) :
    evalStmt1 s st = (.ok 0, stb) ∧
    stb.output = st.output ∧
    stb.hasErrors = st.hasErrors ∧
    stb.visited = st.visited ++ [some (stmtPos s)] ∧
    stb.comments = st.comments ∧
    st.commentGroupIndex ≤ stb.commentGroupIndex := by
  obtain ⟨n, hn, hst⟩ :=
    consumeComment_state (some (stmtPos s)) { st with visited := st.visited ++ [some (stmtPos s)] }
  rw [hc] at hst
  dsimp only at hst
  simp only [St.commentGroupIndex] at hn
  subst hst
  refine ⟨?_, rfl, rfl, rfl, rfl, hn⟩
  rw [evalStmt1, hc]
  simp only [andThen]
  rw [if_pos hm]

/-- C5: witness at a concrete input: the statement at position 30 is a
bare unsupported expression (which would fault if dispatched), yet the
preceding comment group at position 20 contains the marker, so the
evaluator returns 0 with the cursor advanced past the group and
nothing printed. -/
theorem c5_witness :
    evalStmt1 (.exprStmt 30 .badExpr) { initialSt with comments := [⟨20, igText⟩] } =
      (.ok 0,
        { initialSt with
            comments := [⟨20, igText⟩]
            commentGroupIndex := 1
            visited := [some 30] }) :=
  (c5_ignore_directive (.exprStmt 30 .badExpr) { initialSt with comments := [⟨20, igText⟩] }
    (igText ++ nl)
    { initialSt with
        comments := [⟨20, igText⟩]
        commentGroupIndex := 1
        visited := [some 30] }
    rfl (by decide)).1

/-! Claim C7: cursor lemmas for the driver loops. -/

theorem checkLine_cursor (cfg : Config) (s : Stmt) (st : St) :
    st.commentGroupIndex ≤ (checkLine cfg s st).2.commentGroupIndex ∧
    (checkLine cfg s st).2.comments = st.comments := by
  rw [checkLine]
  rcases hev : evalStmt (some s) st with ⟨r, st1⟩
  have hf := evalStmt_frame' (some s) st
  rw [hev] at hf
  obtain ⟨hcom, -, hidx, -, -⟩ := hf
  cases r with
  | error e => exact ⟨hidx, hcom⟩
  | ok v =>
    simp only [andThen]
    split
    · exact ⟨hidx, hcom⟩
    · exact ⟨hidx, hcom⟩

theorem checkLines_cursor (cfg : Config) (l : List Stmt) (st : St) :
    st.commentGroupIndex ≤ (checkLines cfg l st).2.commentGroupIndex ∧
    (checkLines cfg l st).2.comments = st.comments := by
  induction l generalizing st with
  | nil => exact ⟨le_refl _, rfl⟩
  | cons s rest ih =>
    rw [checkLines]
    rcases hcl : checkLine cfg s st with ⟨r, st1⟩
    have h1 := checkLine_cursor cfg s st
    rw [hcl] at h1
    cases r with
    | error e => exact h1
    | ok v =>
      obtain ⟨h2, h3⟩ := ih st1
      exact ⟨le_trans h1.1 h2, h3.trans h1.2⟩

theorem checkFunction_cursor (cfg : Config) (name : String) (body : Option (List Stmt))
    (st : St) :
    st.commentGroupIndex ≤ (checkFunction cfg name body st).2.commentGroupIndex ∧
    (checkFunction cfg name body st).2.comments = st.comments := by
  rw [checkFunction.eq_def]
  cases body with
  | none => exact ⟨le_refl _, rfl⟩
  | some stmts => exact checkLines_cursor cfg stmts { st with currentFunction := some name }

theorem runDecls_cursor (cfg : Config) (l : List Decl) (st : St) :
    st.commentGroupIndex ≤ (runDecls cfg l st).2.commentGroupIndex ∧
    (runDecls cfg l st).2.comments = st.comments := by
  induction l generalizing st with
  | nil => exact ⟨le_refl _, rfl⟩
  | cons d rest ih =>
    cases d with
    | otherDecl => exact ih st
    | funcDecl name body =>
      rw [runDecls]
      rcases hcf : checkFunction cfg name body st with ⟨r, st1⟩
      have h1 := checkFunction_cursor cfg name body st
      rw [hcf] at h1
      cases r with
      | error e => exact h1
      | ok v =>
        obtain ⟨h2, h3⟩ := ih st1
        exact ⟨le_trans h1.1 h2, h3.trans h1.2⟩

/-! Claim C7. -/

/-- C7: the Ignore-Directive Cursor contract.  A lookup for a
statement at position p returns normally and only advances the cursor:
every consumed group was positioned before p, the first unconsumed
group (if any) is not positioned before p, and — when the comment
groups are position-sorted, as go/ast delivers them — no remaining
group is positioned before p, i.e. exactly the not-yet-consumed groups
before p are consumed.  Moreover every whole-statement evaluation, and
the whole declaration loop of one file traversal, leaves the comment
list unchanged and never moves the cursor backward, so a consumed
group is never reconsidered for a later statement. -/
theorem c7_cursor_contract :
    (∀ (p : Nat) (st : St), st.commentGroupIndex ≤ st.comments.length →
      ∃ c n,
        consumeComment (some p) st = (.ok c, { st with commentGroupIndex := n }) ∧
        st.commentGroupIndex ≤ n ∧ n ≤ st.comments.length ∧
        (∀ i (h : i < st.comments.length), st.commentGroupIndex ≤ i → i < n →
          (st.comments.get ⟨i, h⟩).pos < p) ∧
        (∀ h : n < st.comments.length, ¬ (st.comments.get ⟨n, h⟩).pos < p) ∧
        ((∀ i j (hi : i < st.comments.length) (hj : j < st.comments.length), i ≤ j →
            (st.comments.get ⟨i, hi⟩).pos ≤ (st.comments.get ⟨j, hj⟩).pos) →
          ∀ i (h : i < st.comments.length), n ≤ i → ¬ (st.comments.get ⟨i, h⟩).pos < p)) ∧
    (∀ (s : Stmt) (st : St),
      st.commentGroupIndex ≤ (evalStmt1 s st).2.commentGroupIndex ∧
      (evalStmt1 s st).2.comments = st.comments) ∧
    (∀ (cfg : Config) (decls : List Decl) (st : St),
      st.commentGroupIndex ≤ (runDecls cfg decls st).2.commentGroupIndex ∧
      (runDecls cfg decls st).2.comments = st.comments) := by
  constructor
  · intro p st hidx
    obtain ⟨c, n, heq, h1, h2, h3, h4⟩ := consumeComment_sound p st hidx
    refine ⟨c, n, heq, h1, h2, h3, h4, ?_⟩
    intro hsorted i hi hni
    rcases Nat.eq_or_lt_of_le hni with h | h
    · subst h
      exact h4 hi
    · have hn_lt : n < st.comments.length := lt_of_le_of_lt hni hi
      have hmono := hsorted n i hn_lt hi (le_of_lt h)
      have h4' := h4 hn_lt
      omega
  constructor
  · intro s st
    obtain ⟨hcom, hfun, hidxm, hvis, hout⟩ := evalStmt1_frame' s st
    exact ⟨hidxm, hcom⟩
  · intro cfg decls st
    exact runDecls_cursor cfg decls st

/-- C7: witness at a concrete input: a lookup at position 30 with one
unconsumed group at position 20 consumes it and advances the cursor
monotonically. -/
theorem c7_witness :
    ∃ c n,
      consumeComment (some 30) { initialSt with comments := [⟨20, cText⟩] } =
        (.ok c, { initialSt with comments := [⟨20, cText⟩], commentGroupIndex := n }) ∧
      ({ initialSt with comments := [⟨20, cText⟩] } : St).commentGroupIndex ≤ n := by
  obtain ⟨c, n, heq, hle, -, -, -, -⟩ :=
    c7_cursor_contract.1 30 { initialSt with comments := [⟨20, cText⟩] } (by decide)
  exact ⟨c, n, heq, hle⟩

/-! Claim C8. -/

/-- C8: reporting and exit status.  In any single check of a statement
that evaluates without fault, a violation line is printed and the
sticky flag set exactly when the computed complexity strictly exceeds
the threshold (equality is no violation); and in any fault-free run
the sticky flag holds exactly when some line was printed, and the exit
status is 1 precisely when the flag is set and -never-fail is absent,
0 otherwise. -/
theorem c8_reporting_and_exit (cfg : Config) :
    (∀ (s : Stmt) (st : St) (comp : Int) (st1 : St),
      evalStmt (some s) st = (.ok comp, st1) →
      (comp > cfg.optionMaxLineComplexity →
        checkLine cfg s st = (.ok false, printLine comp (stmtPos s) st1) ∧
        (printLine comp (stmtPos s) st1).hasErrors = true ∧
        (printLine comp (stmtPos s) st1).output =
          st1.output ++ [⟨stmtPos s, comp, st1.currentFunction.getD (String.mk [])⟩]) ∧
      (¬ comp > cfg.optionMaxLineComplexity →
        checkLine cfg s st = (.ok true, st1))) ∧
    (∀ (files : List GoFile) (n : Nat) (st' : St),
      mainRun cfg files = (.ok n, st') →
      st'.hasErrors = !st'.output.isEmpty ∧
      n = (if st'.hasErrors && !cfg.optionNeverFail then 1 else 0) ∧
      (cfg.optionNeverFail = true → n = 0) ∧
      (st'.hasErrors = false → n = 0) ∧
      (st'.hasErrors = true → cfg.optionNeverFail = false → n = 1)) := by
  constructor
  · intro s st comp st1 hev
    constructor
    · intro hgt
      refine ⟨?_, by simp [printLine], by simp [printLine]⟩
      rw [checkLine, hev]
      simp only [andThen]
      rw [if_pos hgt]
      have hd : decide (comp ≤ cfg.optionMaxLineComplexity) = false := by
        simp only [decide_eq_false_iff_not]
        omega
      rw [hd]
    · intro hle
      rw [checkLine, hev]
      simp only [andThen]
      rw [if_neg hle]
      have hd : decide (comp ≤ cfg.optionMaxLineComplexity) = true := by
        simp only [decide_eq_true_eq]
        omega
      rw [hd]
  · intro files n st' h
    obtain ⟨hn, hflag⟩ := mainRun_ok_inv cfg files n st' h
    refine ⟨hflag, ?_, ?_, ?_, ?_⟩
    · rw [hn]
      simp only [exitCode]
    · intro hnf
      rw [hn]
      simp [exitCode, hnf]
    · intro hf
      rw [hn]
      simp [exitCode, hf]
    · intro hf hnf
      rw [hn]
      simp [exitCode, hf, hnf]

/-- C8: witness at concrete inputs: a statement of complexity 6
against threshold 5 is printed as a violation with the flag set, and a
fault-free whole run over a file containing it exits with the flag
matching the non-empty output. -/
theorem c8_witness :
    checkLine ⟨false, false, 5⟩
        (.assign 40 [.call [.unary, .unary, .unary, .unary, .unary]]) initialSt =
      (.ok false, printLine 6 40 { initialSt with visited := [some 40] }) ∧
    ({ initialSt with
        currentFunction := some nameF
        hasErrors := true
        output := [⟨40, 6, nameF⟩]
        visited := [some 40] } : St).hasErrors
      = !({ initialSt with
        currentFunction := some nameF
        hasErrors := true
        output := [⟨40, 6, nameF⟩]
        visited := [some 40] } : St).output.isEmpty := by
  constructor
  · exact (((c8_reporting_and_exit ⟨false, false, 5⟩).1
      (.assign 40 [.call [.unary, .unary, .unary, .unary, .unary]]) initialSt 6
      { initialSt with visited := [some 40] } rfl).1 (by decide)).1
  · exact ((c8_reporting_and_exit ⟨false, false, 5⟩).2
      [⟨[], [.funcDecl nameF
        (some [.assign 40 [.call [.unary, .unary, .unary, .unary, .unary]]])]⟩] 1
      { initialSt with
          currentFunction := some nameF
          hasErrors := true
          output := [⟨40, 6, nameF⟩]
          visited := [some 40] } rfl).1

/-! Claim C9. -/

/-- C9: counterexample.  An unsupported statement kind nested in an if
body produces two −1 diagnostic lines, not exactly one: the inner
frame prints one for the offending statement (position 20) and the
enclosing if frame prints another for its own line (position 10)
while re-raising. -/
theorem c9_counterexample :
    evalStmt1 (.ifStmt 10 (.ident nameY) [.emptyStmt 20]) initialSt =
      (.error .badStmtKind,
        { initialSt with
            hasErrors := true
            output := [⟨20, -1, String.mk []⟩, ⟨10, -1, String.mk []⟩]
            visited := [some 10, some 20] }) ∧
    ([(⟨20, -1, String.mk []⟩ : Report), ⟨10, -1, String.mk []⟩].length ≠ 1) :=
  ⟨rfl, by decide⟩

/-- C9 (amended): whenever the evaluation of a statement faults, the
fault is re-raised unrecovered, and on the way out this frame appends
exactly one −1 diagnostic record for this statement line (so a nested
fault yields one such record per enclosing statement frame, innermost
first) and leaves the sticky flag set; the −1 sentinel is printed
directly, never compared against the threshold. -/
theorem c9_amended (s : Stmt) (st : St) (e : Fault) (st' : St)
    (h : evalStmt1 s st = (.error e, st')) :
    ∃ st2, st' = printLine (-1) (stmtPos s) st2 ∧
      st'.output = st2.output ++ [⟨stmtPos s, -1, st2.currentFunction.getD (String.mk [])⟩] ∧
      st'.hasErrors = true := by
  rw [evalStmt1] at h
  obtain ⟨c0, st1, hc⟩ :=
    consumeComment_some_ok (stmtPos s) { st with visited := st.visited ++ [some (stmtPos s)] }
  rw [hc] at h
  simp only [andThen] at h
  by_cases hm : strHasSub c0 ignoreMarker = true
  · rw [if_pos hm] at h
    simp at h
  · rw [if_neg hm] at h
    obtain ⟨st2, hr, hpl⟩ := recoverWrap_error h
    exact ⟨st2, hpl, by rw [hpl]; simp [printLine], by rw [hpl]; simp [printLine]⟩

/-- C9: witness for the amended theorem at a concrete input: a
top-level unsupported statement at position 5 faults after printing
its single −1 line. -/
theorem c9_witness :
    ∃ st2,
      ({ initialSt with
          hasErrors := true
          output := [⟨5, -1, String.mk []⟩]
          visited := [some 5] } : St) = printLine (-1) (stmtPos (.emptyStmt 5)) st2 ∧
      ({ initialSt with
          hasErrors := true
          output := [⟨5, -1, String.mk []⟩]
          visited := [some 5] } : St).output =
        st2.output ++ [⟨stmtPos (.emptyStmt 5), -1, st2.currentFunction.getD (String.mk [])⟩] ∧
      ({ initialSt with
          hasErrors := true
          output := [⟨5, -1, String.mk []⟩]
          visited := [some 5] } : St).hasErrors = true :=
  c9_amended (.emptyStmt 5) initialSt .badStmtKind
    { initialSt with
        hasErrors := true
        output := [⟨5, -1, String.mk []⟩]
        visited := [some 5] } rfl

/-! Claim C6: helper lemmas about the ghost visitation trace. -/

theorem frame_visited {a b : St} (h : StFrame a b) : ∃ t, b.visited = a.visited ++ t :=
  h.2.2.2.1

theorem recoverWrap_visited (pos : Nat) (r : Except Fault Int × St) :
    (recoverWrap pos r).2.visited = r.2.visited := by
  rcases r with ⟨r1, st1⟩
  cases r1 with
  | error e => simp [recoverWrap, printLine]
  | ok v => rfl

theorem consumeComment_ok_visited {p : Nat} {st0 stb : St} {c : String}
    (hc : consumeComment (some p) st0 = (.ok c, stb)) :
    stb.visited = st0.visited ∧ stb.output = st0.output ∧ stb.hasErrors = st0.hasErrors := by
  obtain ⟨n, hn, hst⟩ := consumeComment_state (some p) st0
  rw [hc] at hst
  dsimp only at hst
  subst hst
  exact ⟨rfl, rfl, rfl⟩

theorem andThen_visited {α β : Type} {st : St} {r : Except Fault α × St}
    {k : α → St → Except Fault β × St} (h1 : r.2.visited = st.visited)
    (h2 : ∀ v st1, r = (.ok v, st1) → (k v st1).2.visited = st1.visited) :
    (andThen r k).2.visited = st.visited := by
  rcases r with ⟨r1, st1⟩
  cases r1 with
  | error e => exact h1
  | ok v => exact (h2 v st1 rfl).trans h1

mutual

theorem evalExpr_nfl (e : Expr) (st : St) (h : noFuncLit e = true) :
    (evalExpr e st).2.visited = st.visited := by
  cases e with
  | basicLit => rfl
  | ident name => rfl
  | arrayType => rfl
  | mapType => rfl
  | chanType => rfl
  | structType => rfl
  | interfaceType => rfl
  | selector => rfl
  | unary => rfl
  | typeAssert => rfl
  | star x => exact evalExpr_nfl x st (by simpa [noFuncLit] using h)
  | call args =>
    rw [evalExpr]
    refine andThen_visited (evalExprs_nfl args st (by simpa [noFuncLit] using h)) ?_
    intro v st1 _
    rfl
  | binary x op y =>
    simp only [noFuncLit, Bool.and_eq_true] at h
    rw [evalExpr]
    refine andThen_visited (evalExpr_nfl x st h.1) ?_
    intro left st1 _
    refine andThen_visited (evalExpr_nfl y st1 h.2) ?_
    intro right st2 _
    dsimp only
    repeat' split
    all_goals rfl
  | compositeLit elts =>
    exact listComplexityLoop_nfl elts 1 st (by simpa [noFuncLit] using h)
  | index idx =>
    rw [evalExpr]
    refine andThen_visited (evalExpr_nfl idx st (by simpa [noFuncLit] using h)) ?_
    intro v st1 _
    rfl
  | keyValue value => exact evalExpr_nfl value st (by simpa [noFuncLit] using h)
  | paren x => exact evalExpr_nfl x st (by simpa [noFuncLit] using h)
  | funcLit body => simp [noFuncLit] at h
  | slice lo hi mx =>
    simp only [noFuncLit, Bool.and_eq_true] at h
    rw [evalExpr]
    refine andThen_visited (evalExprO_nfl lo st h.1.1) ?_
    intro a st1 _
    refine andThen_visited (evalExprO_nfl hi st1 h.1.2) ?_
    intro b st2 _
    refine andThen_visited (evalExprO_nfl mx st2 h.2) ?_
    intro c st3 _
    rfl
  | badExpr => rfl

theorem evalExprO_nfl (e : Option Expr) (st : St) (h : noFuncLitO e = true) :
    (evalExprO e st).2.visited = st.visited := by
  cases e with
  | none => rfl
  | some x => exact evalExpr_nfl x st (by simpa [noFuncLitO] using h)

theorem evalExprs_nfl (l : List Expr) (st : St) (h : noFuncLitList l = true) :
    (evalExprs l st).2.visited = st.visited := by
  cases l with
  | nil => rfl
  | cons e rest =>
    simp only [noFuncLitList, Bool.and_eq_true] at h
    rw [evalExprs]
    refine andThen_visited (evalExpr_nfl e st h.1) ?_
    intro v st1 _
    refine andThen_visited (evalExprs_nfl rest st1 h.2) ?_
    intro total st2 _
    rfl

theorem listComplexityLoop_nfl (l : List Expr) (total : Int) (st : St)
    (h : noFuncLitList l = true) :
    (listComplexityLoop l total st).2.visited = st.visited := by
  cases l with
  | nil => rfl
  | cons e rest =>
    simp only [noFuncLitList, Bool.and_eq_true] at h
    rw [listComplexityLoop]
    refine andThen_visited (evalExpr_nfl e st h.1) ?_
    intro v st1 _
    dsimp only
    exact listComplexityLoop_nfl rest _ st1 h.2

end

/-- Common tail of the body-visitation arguments: a dispatch that
first runs the body-visitation loop and then anything that only
appends to the trace visits every body statement. -/
theorem visits_of_stmts_chain {body : List Stmt} {stb st2 st' : St} {u : Unit}
    (hb : evalStmts body stb = (.ok u, st2))
    (hrest : ∃ t, st'.visited = st2.visited ++ t)
    {st : St} {p : Nat} (hstb : stb.visited = st.visited ++ [some p]) :
    ∃ ext, st'.visited = st.visited ++ (some p :: ext) ∧
      ∀ c ∈ body, some (stmtPos c) ∈ ext := by
  obtain ⟨extB, hv2, hmem⟩ := evalStmts_visits body stb u st2 hb
  obtain ⟨t, hv3⟩ := hrest
  refine ⟨extB ++ t, ?_, ?_⟩
  · rw [hv3, hv2, hstb]
    simp [List.append_assoc]
  · intro c hcmem
    simp only [List.mem_append]
    exact Or.inl (hmem c hcmem)

/-! Claim C6. -/

/-- C6: counterexample.  A range statement at position 10 whose body
contains a statement at position 30, evaluated while a comment group
at position 20 (between the two) is unconsumed, finishes with the
cursor still at 0 and a ghost trace holding only the range statement
itself: the body statement was never visited — had it been visited
like any other nested body, its lookup would have consumed the group
at position 20 and its entry would appear on the trace. -/
theorem c6_counterexample :
    evalStmt1 (.rangeStmt 10 (.ident nameX) [.exprStmt 30 (.call [])])
        { initialSt with comments := [⟨20, cText⟩] } =
      (.ok 0, { initialSt with comments := [⟨20, cText⟩], visited := [some 10] }) ∧
    (some 30 ∉ ([some 10] : List (Option Nat))) ∧
    ({ initialSt with comments := [⟨20, cText⟩], visited := [some 10] } : St).commentGroupIndex
      = 0 :=
  ⟨rfl, by decide, rfl⟩

/-- C6 (amended): visitation of nested bodies.  When a statement is
not suppressed by an ignore directive and its evaluation returns
normally, every statement directly inside the body of an if, a tagged
switch, a type switch, or a case clause is visited (its entry appears
on the trace appended after the parent entry); the same holds for
function literal bodies, unconditionally.  The bodies of range
statements (for a scrutinee without function literals), select
statements and tagless switches are never visited: evaluation appends
only the statement itself to the trace.  And a for statement visits
its body statements before its init clause, which is visited before
the post clause — not in source order. -/
theorem c6_amended :
    (∀ (p : Nat) (cond : Expr) (body : List Stmt) (st stb st' : St) (ctext : String) (v : Int),
      consumeComment (some p) { st with visited := st.visited ++ [some p] } = (.ok ctext, stb) →
      strHasSub ctext ignoreMarker = false →
      evalStmt1 (.ifStmt p cond body) st = (.ok v, st') →
      ∃ ext, st'.visited = st.visited ++ (some p :: ext) ∧
        ∀ c ∈ body, some (stmtPos c) ∈ ext) ∧
    (∀ (p : Nat) (t : Expr) (body : List Stmt) (st stb st' : St) (ctext : String) (v : Int),
      consumeComment (some p) { st with visited := st.visited ++ [some p] } = (.ok ctext, stb) →
      strHasSub ctext ignoreMarker = false →
      evalStmt1 (.switchStmt p (some t) body) st = (.ok v, st') →
      ∃ ext, st'.visited = st.visited ++ (some p :: ext) ∧
        ∀ c ∈ body, some (stmtPos c) ∈ ext) ∧
    (∀ (p : Nat) (body : List Stmt) (st stb st' : St) (ctext : String) (v : Int),
      consumeComment (some p) { st with visited := st.visited ++ [some p] } = (.ok ctext, stb) →
      strHasSub ctext ignoreMarker = false →
      evalStmt1 (.typeSwitch p body) st = (.ok v, st') →
      ∃ ext, st'.visited = st.visited ++ (some p :: ext) ∧
        ∀ c ∈ body, some (stmtPos c) ∈ ext) ∧
    (∀ (p : Nat) (vals : List Expr) (body : List Stmt) (st stb st' : St) (ctext : String)
        (v : Int),
      consumeComment (some p) { st with visited := st.visited ++ [some p] } = (.ok ctext, stb) →
      strHasSub ctext ignoreMarker = false →
      evalStmt1 (.caseClause p vals body) st = (.ok v, st') →
      ∃ ext, st'.visited = st.visited ++ (some p :: ext) ∧
        ∀ c ∈ body, some (stmtPos c) ∈ ext) ∧
    (∀ (body : List Stmt) (st st' : St) (v : Int),
      evalExpr (.funcLit body) st = (.ok v, st') →
      ∃ ext, st'.visited = st.visited ++ ext ∧
        ∀ c ∈ body, some (stmtPos c) ∈ ext) ∧
    (∀ (p : Nat) (x : Expr) (body : List Stmt) (st : St), noFuncLit x = true →
      (evalStmt1 (.rangeStmt p x body) st).2.visited = st.visited ++ [some p]) ∧
    (∀ (p : Nat) (body : List Stmt) (st : St),
      (evalStmt1 (.selectStmt p body) st).2.visited = st.visited ++ [some p]) ∧
    (∀ (p : Nat) (body : List Stmt) (st : St),
      (evalStmt1 (.switchStmt p none body) st).2.visited = st.visited ++ [some p]) ∧
    (∀ (p : Nat) (ini : Option Stmt) (cond : Option Expr) (post : Option Stmt)
        (body : List Stmt) (st stb st' : St) (ctext : String) (v : Int),
      consumeComment (some p) { st with visited := st.visited ++ [some p] } = (.ok ctext, stb) →
      strHasSub ctext ignoreMarker = false →
      evalStmt1 (.forStmt p ini cond post body) st = (.ok v, st') →
      ∃ extB extI extC extP,
        st'.visited = st.visited ++ (some p ::
          (extB ++ (Option.map stmtPos ini :: extI) ++ extC ++
            (Option.map stmtPos post :: extP))) ∧
        ∀ c ∈ body, some (stmtPos c) ∈ extB) := by
  refine ⟨?_, ?_, ?_, ?_, ?_, ?_, ?_, ?_, ?_⟩
  · -- if statement bodies are visited
    intro p cond body st stb st' ctext v hc hm hev
    have hm' : ¬ (strHasSub ctext ignoreMarker = true) := by rw [hm]; simp
    rw [evalStmt1] at hev
    rw [show stmtPos (Stmt.ifStmt p cond body) = p from rfl] at hev
    rw [hc] at hev
    simp only [andThen] at hev
    rw [if_neg hm'] at hev
    have hd := recoverWrap_ok hev
    obtain ⟨u, st2, hb, hk⟩ := andThen_ok hd
    obtain ⟨t2, hv3⟩ := frame_visited (evalExpr_frame cond st2)
    rw [hk] at hv3
    exact visits_of_stmts_chain hb ⟨t2, hv3⟩ (consumeComment_ok_visited hc).1
  · -- tagged switch bodies are visited
    intro p t body st stb st' ctext v hc hm hev
    have hm' : ¬ (strHasSub ctext ignoreMarker = true) := by rw [hm]; simp
    rw [evalStmt1] at hev
    rw [show stmtPos (Stmt.switchStmt p (some t) body) = p from rfl] at hev
    rw [hc] at hev
    simp only [andThen] at hev
    rw [if_neg hm'] at hev
    have hd := recoverWrap_ok hev
    obtain ⟨u, st2, hb, hk⟩ := andThen_ok hd
    obtain ⟨w, st3, hw, hfin⟩ := andThen_ok hk
    obtain ⟨t2, hv3⟩ := frame_visited (evalExpr_frame t st2)
    rw [hw] at hv3
    simp only [Prod.mk.injEq, Except.ok.injEq] at hfin
    rw [← hfin.2] at *
    exact visits_of_stmts_chain hb ⟨t2, hv3⟩ (consumeComment_ok_visited hc).1
  · -- type switch bodies are visited
    intro p body st stb st' ctext v hc hm hev
    have hm' : ¬ (strHasSub ctext ignoreMarker = true) := by rw [hm]; simp
    rw [evalStmt1] at hev
    rw [show stmtPos (Stmt.typeSwitch p body) = p from rfl] at hev
    rw [hc] at hev
    simp only [andThen] at hev
    rw [if_neg hm'] at hev
    have hd := recoverWrap_ok hev
    obtain ⟨u, st2, hb, hk⟩ := andThen_ok hd
    simp only [Prod.mk.injEq, Except.ok.injEq] at hk
    rw [← hk.2] at *
    exact visits_of_stmts_chain hb ⟨[], by simp⟩ (consumeComment_ok_visited hc).1
  · -- case clause bodies are visited
    intro p vals body st stb st' ctext v hc hm hev
    have hm' : ¬ (strHasSub ctext ignoreMarker = true) := by rw [hm]; simp
    rw [evalStmt1] at hev
    rw [show stmtPos (Stmt.caseClause p vals body) = p from rfl] at hev
    rw [hc] at hev
    simp only [andThen] at hev
    rw [if_neg hm'] at hev
    have hd := recoverWrap_ok hev
    obtain ⟨u, st2, hb, hk⟩ := andThen_ok hd
    obtain ⟨t2, hv3⟩ := frame_visited (listComplexityLoop_frame vals 1 st2)
    rw [hk] at hv3
    exact visits_of_stmts_chain hb ⟨t2, hv3⟩ (consumeComment_ok_visited hc).1
  · -- function literal bodies are visited
    intro body st st' v hev
    rw [evalExpr] at hev
    obtain ⟨u, st1, hb, hk⟩ := andThen_ok hev
    simp only [Prod.mk.injEq, Except.ok.injEq] at hk
    rw [← hk.2] at *
    exact evalStmts_visits body st u st1 hb
  · -- range bodies are never visited
    intro p x body st hx
    rw [evalStmt1]
    rw [show stmtPos (Stmt.rangeStmt p x body) = p from rfl]
    obtain ⟨c0, st1, hc⟩ :=
      consumeComment_some_ok p { st with visited := st.visited ++ [some p] }
    rw [hc]
    simp only [andThen]
    have hv1 : st1.visited = st.visited ++ [some p] := (consumeComment_ok_visited hc).1
    by_cases hm : strHasSub c0 ignoreMarker = true
    · rw [if_pos hm]
      exact hv1
    · rw [if_neg hm]
      rw [recoverWrap_visited]
      rw [evalExpr_nfl x st1 hx]
      exact hv1
  · -- select bodies are never visited
    intro p body st
    rw [evalStmt1]
    rw [show stmtPos (Stmt.selectStmt p body) = p from rfl]
    obtain ⟨c0, st1, hc⟩ :=
      consumeComment_some_ok p { st with visited := st.visited ++ [some p] }
    rw [hc]
    simp only [andThen]
    have hv1 : st1.visited = st.visited ++ [some p] := (consumeComment_ok_visited hc).1
    by_cases hm : strHasSub c0 ignoreMarker = true
    · rw [if_pos hm]
      exact hv1
    · rw [if_neg hm]
      exact hv1
  · -- tagless switch bodies are never visited
    intro p body st
    rw [evalStmt1]
    rw [show stmtPos (Stmt.switchStmt p none body) = p from rfl]
    obtain ⟨c0, st1, hc⟩ :=
      consumeComment_some_ok p { st with visited := st.visited ++ [some p] }
    rw [hc]
    simp only [andThen]
    have hv1 : st1.visited = st.visited ++ [some p] := (consumeComment_ok_visited hc).1
    by_cases hm : strHasSub c0 ignoreMarker = true
    · rw [if_pos hm]
      exact hv1
    · rw [if_neg hm]
      exact hv1
  · -- for statements visit the body first, then init, then post
    intro p ini cond post body st stb st' ctext v hc hm hev
    have hm' : ¬ (strHasSub ctext ignoreMarker = true) := by rw [hm]; simp
    rw [evalStmt1] at hev
    rw [show stmtPos (Stmt.forStmt p ini cond post body) = p from rfl] at hev
    rw [hc] at hev
    simp only [andThen] at hev
    rw [if_neg hm'] at hev
    have hd := recoverWrap_ok hev
    obtain ⟨u, st2, hb, hk⟩ := andThen_ok hd
    obtain ⟨i, st3, hi, hk2⟩ := andThen_ok hk
    obtain ⟨cv, st4, hcnd, hk3⟩ := andThen_ok hk2
    obtain ⟨pv, st5, hp, hfin⟩ := andThen_ok hk3
    simp only [Prod.mk.injEq, Except.ok.injEq] at hfin
    obtain ⟨extB, hv2, hmem⟩ := evalStmts_visits body stb u st2 hb
    obtain ⟨tI, hvI⟩ := evalStmt_visited ini st2
    rw [hi] at hvI
    obtain ⟨tC, hvC⟩ := frame_visited (evalExprO_frame cond st3)
    rw [hcnd] at hvC
    obtain ⟨tP, hvP⟩ := evalStmt_visited post st4
    rw [hp] at hvP
    have hstb : stb.visited = st.visited ++ [some p] := (consumeComment_ok_visited hc).1
    refine ⟨extB, tI, tC, tP, ?_, hmem⟩
    rw [← hfin.2, hvP, hvC, hvI, hv2, hstb]
    simp [List.append_assoc]

/-- C6: witness for the amended theorem at a concrete input: the if
statement at position 10 with a body statement at position 30 puts
some 30 on the trace appended after its own entry. -/
theorem c6_witness :
    ∃ ext,
      ({ initialSt with visited := [some 10, some 30] } : St).visited =
        initialSt.visited ++ (some 10 :: ext) ∧
      ∀ c ∈ [Stmt.exprStmt 30 (.call [])], some (stmtPos c) ∈ ext :=
  c6_amended.1 10 (.ident nameY) [.exprStmt 30 (.call [])] initialSt
    { initialSt with visited := [some 10] } { initialSt with visited := [some 10, some 30] }
    (String.mk []) 0 rfl (by decide) rfl

/-! Regression checks mirroring the expectations of the test suite of
the repository (TestLineComplexity) on the cases that main.go
satisfies, validating the embedding against the observable
behaviour.  Each line names the Go source of the corresponding test
case. -/

/-- hello := "Hello" scores 0. -/
theorem srcTest_assign_literal : (evalStmt1 (.assign 1 [.basicLit]) initialSt).1 = .ok 0 := rfl

/-- hello := foo("bar") scores 1. -/
theorem srcTest_assign_call :
    (evalStmt1 (.assign 1 [.call [.basicLit]]) initialSt).1 = .ok 1 := rfl

/-- hello := foo("bar") + baz() scores 3. -/
theorem srcTest_assign_call_plus_call :
    (evalStmt1 (.assign 1 [.binary (.call [.basicLit]) .add (.call [])]) initialSt).1
      = .ok 3 := rfl

/-- hello := foo(baz()) scores 2. -/
theorem srcTest_assign_nested_call :
    (evalStmt1 (.assign 1 [.call [.call []]]) initialSt).1 = .ok 2 := rfl

/-- hello := "Hello" + name scores 1. -/
theorem srcTest_assign_lit_plus_ident :
    (evalStmt1 (.assign 1 [.binary .basicLit .add (.ident nameX)]) initialSt).1 = .ok 1 := rfl

/-- foo(1 + 2, "foo") scores 2. -/
theorem srcTest_call_two_args :
    (evalStmt1 (.exprStmt 1 (.call [.binary .basicLit .add .basicLit, .basicLit])) initialSt).1
      = .ok 2 := rfl

/-- foo(a.b, a.c, a.d, a.e) scores 1: selectors are free. -/
theorem srcTest_call_selectors :
    (evalStmt1 (.exprStmt 1 (.call [.selector, .selector, .selector, .selector])) initialSt).1
      = .ok 1 := rfl

/-- words := []string{hello, world} scores 1. -/
theorem srcTest_composite :
    (evalStmt1 (.assign 1 [.compositeLit [.ident nameX, .ident nameY]]) initialSt).1
      = .ok 1 := rfl

/-- words := []string{hello + world, world} scores 1. -/
theorem srcTest_composite_binary :
    (evalStmt1 (.assign 1 [.compositeLit [.binary (.ident nameX) .add (.ident nameY),
      .ident nameY]]) initialSt).1 = .ok 1 := rfl

/-- 3 + 2 scores 1. -/
theorem srcTest_binary_lits :
    (evalStmt1 (.exprStmt 1 (.binary .basicLit .add .basicLit)) initialSt).1 = .ok 1 := rfl

/-- foo(bar) || baz scores 2. -/
theorem srcTest_binary_call_or_ident :
    (evalStmt1 (.exprStmt 1 (.binary (.call [.ident nameX]) .lor (.ident nameY))) initialSt).1
      = .ok 2 := rfl

/-- true || foo(bar) scores 2. -/
theorem srcTest_binary_ident_or_call :
    (evalStmt1 (.exprStmt 1 (.binary (.ident nameTrue) .lor (.call [.ident nameX]))) initialSt).1
      = .ok 2 := rfl

/-- foo(bar) || foo(bar) scores 3: only the left call bonus applies. -/
theorem srcTest_binary_call_or_call :
    (evalStmt1 (.exprStmt 1 (.binary (.call [.ident nameX]) .lor (.call [.ident nameX])))
      initialSt).1 = .ok 3 := rfl

/-- return scores 0. -/
theorem srcTest_return_empty : (evalStmt1 (.returnStmt 1 []) initialSt).1 = .ok 0 := rfl

/-- return 123 scores 1. -/
theorem srcTest_return_one : (evalStmt1 (.returnStmt 1 [.basicLit]) initialSt).1 = .ok 1 := rfl

/-- return name + abc, abc + foo scores 1. -/
theorem srcTest_return_two_binary :
    (evalStmt1 (.returnStmt 1 [.binary (.ident nameX) .add (.ident nameY),
      .binary (.ident nameY) .add (.ident nameX)]) initialSt).1 = .ok 1 := rfl

/-- !foo (also !!foo) scores 1: unary is flat. -/
theorem srcTest_unary : (evalStmt1 (.exprStmt 1 .unary) initialSt).1 = .ok 1 := rfl

/-- if false {} scores 0. -/
theorem srcTest_if_ident :
    (evalStmt1 (.ifStmt 1 (.ident nameFalse) []) initialSt).1 = .ok 0 := rfl

/-- if a || b {} scores 1. -/
theorem srcTest_if_or :
    (evalStmt1 (.ifStmt 1 (.binary (.ident nameX) .lor (.ident nameY)) []) initialSt).1
      = .ok 1 := rfl

/-- a.b.c scores 0. -/
theorem srcTest_selector_chain : (evalStmt1 (.exprStmt 1 .selector) initialSt).1 = .ok 0 := rfl

/-- var a float64 scores 0. -/
theorem srcTest_decl_type_only :
    (evalStmt1 (.declStmt 1 [.valueSpec []]) initialSt).1 = .ok 0 := rfl

/-- var a float64 = foo(3.2 + b) scores 2. -/
theorem srcTest_decl_value :
    (evalStmt1 (.declStmt 1 [.valueSpec [.call [.binary .basicLit .add (.ident nameB)]]])
      initialSt).1 = .ok 2 := rfl

/-- switch {} (tagless) scores 0. -/
theorem srcTest_switch_tagless :
    (evalStmt1 (.switchStmt 1 none []) initialSt).1 = .ok 0 := rfl

/-- switch foo {} scores 1. -/
theorem srcTest_switch_tag :
    (evalStmt1 (.switchStmt 1 (some (.ident nameX)) []) initialSt).1 = .ok 1 := rfl

/-- switch foo(bar) || baz {} scores 3. -/
theorem srcTest_switch_tag_or :
    (evalStmt1 (.switchStmt 1 (some (.binary (.call [.ident nameX]) .lor (.ident nameY))) [])
      initialSt).1 = .ok 3 := rfl

/-- for range foo("bar") {} scores 1. -/
theorem srcTest_range_call :
    (evalStmt1 (.rangeStmt 1 (.call [.basicLit]) []) initialSt).1 = .ok 1 := rfl

/-- for range foo(bar()) {} scores 2. -/
theorem srcTest_range_nested_call :
    (evalStmt1 (.rangeStmt 1 (.call [.call []]) []) initialSt).1 = .ok 2 := rfl

/-- a["b"] scores 1 and a["b"]["c"] scores 1: the indexed operand is
not scored, only the index expression. -/
theorem srcTest_index :
    (evalStmt1 (.exprStmt 1 (.index .basicLit)) initialSt).1 = .ok 1 := rfl

/-- a[12 + 34] scores 2. -/
theorem srcTest_index_binary :
    (evalStmt1 (.exprStmt 1 (.index (.binary .basicLit .add .basicLit))) initialSt).1
      = .ok 2 := rfl

/-- map[int]int{1: foo(bar("bar")), 3: 4 + 2} scores 2. -/
theorem srcTest_keyvalue :
    (evalStmt1 (.exprStmt 1 (.compositeLit [.keyValue (.call [.call [.basicLit]]),
      .keyValue (.binary .basicLit .add .basicLit)])) initialSt).1 = .ok 2 := rfl

/-- defer foo() scores 0: only the callee is scored. -/
theorem srcTest_defer_ident :
    (evalStmt1 (.deferStmt 1 (.ident nameX)) initialSt).1 = .ok 0 := rfl

/-- defer func() {}() scores 1. -/
theorem srcTest_defer_funcLit :
    (evalStmt1 (.deferStmt 1 (.funcLit [])) initialSt).1 = .ok 1 := rfl

/-- a := (((123))) scores 0. -/
theorem srcTest_paren :
    (evalStmt1 (.assign 1 [.paren (.paren (.paren .basicLit))]) initialSt).1 = .ok 0 := rfl

/-- func () { foo(bar(baz())); } scores 1 regardless of its body. -/
theorem srcTest_funcLit :
    (evalStmt1 (.exprStmt 1 (.funcLit [.exprStmt 2 (.call [.call [.call []]])])) initialSt).1
      = .ok 1 := rfl

/-- for {} scores 0. -/
theorem srcTest_for_bare :
    (evalStmt1 (.forStmt 1 none none none []) initialSt).1 = .ok 0 := rfl

/-- a.(Foo) scores 1. -/
theorem srcTest_typeAssert : (evalStmt1 (.exprStmt 1 .typeAssert) initialSt).1 = .ok 1 := rfl

/-- lastName[1 : 2] scores 1 (absent max bound contributes 0). -/
theorem srcTest_slice_two :
    (evalStmt1 (.exprStmt 1 (.slice (some .basicLit) (some .basicLit) none)) initialSt).1
      = .ok 1 := rfl

/-- lastName[baz() : foo + bar : qux()] scores 4. -/
theorem srcTest_slice_three :
    (evalStmt1 (.exprStmt 1 (.slice (some (.call []))
      (some (.binary (.ident nameX) .add (.ident nameY))) (some (.call [])))) initialSt).1
      = .ok 4 := rfl

/-- *(foo + bar) scores 1: star passes through its operand. -/
theorem srcTest_star :
    (evalStmt1 (.exprStmt 1 (.star (.paren (.binary (.ident nameX) .add (.ident nameY)))))
      initialSt).1 = .ok 1 := rfl

/-- switch a.(type) {} scores 1. -/
theorem srcTest_typeswitch : (evalStmt1 (.typeSwitch 1 []) initialSt).1 = .ok 1 := rfl

/-- case foo(bar()), baz(bar(bar())): scores 4. -/
theorem srcTest_case :
    (evalStmt1 (.caseClause 1 [.call [.call []], .call [.call [.call []]]] []) initialSt).1
      = .ok 4 := rfl

/-- a default clause (empty value list) scores 1. -/
theorem srcTest_case_default :
    (evalStmt1 (.caseClause 1 [] []) initialSt).1 = .ok 1 := rfl

/-- increment/decrement and branch statements score 1; labeled and
select statements score 0; a standalone block scores 0; a send scores
the sent value. -/
theorem srcTest_small_kinds :
    (evalStmt1 (.incDec 1) initialSt).1 = .ok 1 ∧
    (evalStmt1 (.branch 1) initialSt).1 = .ok 1 ∧
    (evalStmt1 (.labeled 1) initialSt).1 = .ok 0 ∧
    (evalStmt1 (.selectStmt 1 []) initialSt).1 = .ok 0 ∧
    (evalStmt1 (.block 1 []) initialSt).1 = .ok 0 ∧
    (evalStmt1 (.send 1 (.call [])) initialSt).1 = .ok 1 :=
  ⟨rfl, rfl, rfl, rfl, rfl, rfl⟩

end Ghost
